import Mathlib

/-!
Verification of the sql-importer ingest pipeline against its specification.

The Go sources are shallowly embedded: pure functions become Lean functions,
Go maps become insertion-ordered association lists (all properties proved here
are order-independent), Go `[]byte` becomes `List Char` (inputs are ASCII),
fallible or panicking code returns `Option`/`Except`, and the database client
is modelled as an explicit state machine over an abstract database value with
an operation log.
-/

namespace SqlImporter

/-! ## profile: ValueType and the generalization lattice (unnamed/part_001) -/

/-- ValueType is a type of value (the `iota` enumeration in the profile
package, in declaration order). -/
inductive ValueType where
  | UnknownType
  | NullType
  | StringType
  | BinaryType
  | IntType
  | FloatType
  | BoolType
  | DateType
  | DateTimeType
  | ObjectType
deriving DecidableEq, Repr, Fintype

open ValueType

/-- The explicit generalization table `typeGeneralizationMap`. -/
def typeGeneralizationMap : ValueType → ValueType → Option ValueType
  | BoolType, IntType => some IntType
  | IntType, FloatType => some FloatType
  | BoolType, FloatType => some FloatType
  | DateTimeType, DateType => some DateTimeType
  | _, _ => none

/-- GeneralizeType takes two types and returns the more general type of the
two, with string being the most general if both are not null types. -/
def GeneralizeType (t1 t2 : ValueType) : ValueType :=
  if t1 = t2 then t1
  else if t1 = NullType then t2
  else if t2 = NullType then t1
  else
    match typeGeneralizationMap t1 t2 with
    | some t => t
    | none =>
      match typeGeneralizationMap t2 t1 with
      | some t => t
      | none => StringType

/-! ## profile: value parsers (unnamed/part_004)

The inputs are strings; they are handled as `List Char` (the sources operate
on ASCII bytes). -/

/-- ASCII decimal digit. -/
def isDigit (c : Char) : Bool := '0' ≤ c && c ≤ '9'

/-- Numeric value of a digit string. -/
def digitsVal (l : List Char) : Nat :=
  l.foldl (fun a c => a * 10 + (c.toNat - '0'.toNat)) 0

/-- Whether `strconv.ParseInt(s, 10, 64)` succeeds, as called by
`profile.ParseInt`: an optional sign, then one or more decimal digits, and
the value must fit in a signed 64-bit integer. -/
def parseIntOk (s : String) : Bool :=
  match s.toList with
  | [] => false
  | c :: rest =>
    let p : Bool × List Char :=
      if c = '+' then (false, rest)
      else if c = '-' then (true, rest)
      else (false, c :: rest)
    !p.2.isEmpty && p.2.all isDigit &&
      (if p.1 then digitsVal p.2 ≤ 2 ^ 63 else digitsVal p.2 ≤ 2 ^ 63 - 1)

/-- Whitespace as trimmed by `strings.TrimSpace` (ASCII subset). -/
def isSpace (c : Char) : Bool :=
  c = ' ' || c = '\t' || c = '\n' || c = '\r'

/-- `strings.TrimSpace`. -/
def trimSpace (s : String) : List Char :=
  ((s.toList.dropWhile isSpace).reverse.dropWhile isSpace).reverse

/-- `profile.ParseBool`: TrimSpace then `strconv.ParseBool`, which accepts
exactly these tokens. -/
def parseBoolOk (s : String) : Bool :=
  [['1'], ['t'], ['T'], ['T','R','U','E'], ['t','r','u','e'], ['T','r','u','e'],
   ['0'], ['f'], ['F'], ['F','A','L','S','E'], ['f','a','l','s','e'],
   ['F','a','l','s','e']].contains (trimSpace s)

/-- Exponent part of a base-10 float literal: empty, or `e`/`E`, an optional
sign and one or more digits. -/
def floatExpOk : List Char → Bool
  | [] => true
  | c :: rest =>
    (c = 'e' || c = 'E') &&
      (let rest2 := match rest with
        | d :: r => if d = '+' || d = '-' then r else d :: r
        | [] => []
       !rest2.isEmpty && rest2.all isDigit)

/-- Mantissa-and-exponent syntax of a base-10 float accepted by
`strconv.ParseFloat`: digits with an optional dot (at least one digit in the
mantissa), then an optional exponent. -/
def floatMantissaOk (l : List Char) : Bool :=
  let intPart := l.takeWhile isDigit
  let rest := l.dropWhile isDigit
  match rest with
  | '.' :: rest2 =>
    let frac := rest2.takeWhile isDigit
    (!intPart.isEmpty || !frac.isEmpty) && floatExpOk (rest2.dropWhile isDigit)
  | rest => !intPart.isEmpty && floatExpOk rest

/-- Whether `strconv.ParseFloat(s, 64)` succeeds, as called by
`profile.ParseFloat`. Modelled: optional sign, then `inf`/`infinity`/`nan`
(any case) or decimal mantissa-exponent syntax. Hexadecimal floats and
range (overflow) errors are not modelled; no claim below exercises float
parsing. -/
def parseFloatOk (s : String) : Bool :=
  match s.toList with
  | [] => false
  | c :: rest =>
    let l := if c = '+' || c = '-' then rest else c :: rest
    let low := l.map Char.toLower
    low = ['i','n','f'] || low = ['i','n','f','i','n','i','t','y'] ||
      low = ['n','a','n'] || floatMantissaOk l

/-- Reads one or two digits, as Go `time`'s `getnum`; a fixed-width layout
component requires two digits. -/
def getnum (fixed : Bool) : List Char → Option (Nat × List Char)
  | [] => none
  | c :: rest =>
    if isDigit c then
      match rest with
      | d :: rest2 =>
        if isDigit d then some ((c.toNat - 48) * 10 + (d.toNat - 48), rest2)
        else if fixed then none else some (c.toNat - 48, d :: rest2)
      | [] => if fixed then none else some (c.toNat - 48, [])
    else none

/-- Reads exactly four digits (the `2006` layout component). -/
def getnum4 : List Char → Option (Nat × List Char)
  | a :: b :: c :: d :: rest =>
    if isDigit a && isDigit b && isDigit c && isDigit d then
      some (digitsVal [a, b, c, d], rest)
    else none
  | _ => none

/-- Layout components of the `time` layouts used by the profile package. -/
inductive LayoutTok where
  | lit (c : Char)   -- literal separator character
  | year4            -- 2006
  | year2            -- 06
  | month2           -- 01 (two digits required)
  | day2             -- 02 (two digits required)
  | month1           -- 1 (one or two digits)
  | day1             -- 2 (one or two digits)
  | hour2            -- 15
  | minute2          -- 04
  | second2          -- 05
  | isoColonTZ       -- Z07:00 (either a literal Z or a signed hh:mm offset)

/-- Parsed date-time components. -/
structure DateParts where
  year : Nat
  month : Nat
  day : Nat
  hour : Nat
  minute : Nat
  second : Nat

/-- Matches a layout token list against the input, accumulating components
(Go `time.Parse`'s scanning loop, restricted to the components above). -/
def matchLayout : List LayoutTok → List Char → DateParts → Option DateParts
  | [], [], acc => some acc
  | [], _ :: _, _ => none
  | tok :: toks, l, acc =>
    match tok with
    | .lit c =>
      match l with
      | c2 :: rest => if c2 = c then matchLayout toks rest acc else none
      | [] => none
    | .year4 =>
      match getnum4 l with
      | some (v, rest) => matchLayout toks rest { acc with year := v }
      | none => none
    | .year2 =>
      match getnum true l with
      | some (v, rest) =>
        matchLayout toks rest
          { acc with year := if v ≥ 69 then 1900 + v else 2000 + v }
      | none => none
    | .month2 =>
      match getnum true l with
      | some (v, rest) => matchLayout toks rest { acc with month := v }
      | none => none
    | .day2 =>
      match getnum true l with
      | some (v, rest) => matchLayout toks rest { acc with day := v }
      | none => none
    | .month1 =>
      match getnum false l with
      | some (v, rest) => matchLayout toks rest { acc with month := v }
      | none => none
    | .day1 =>
      match getnum false l with
      | some (v, rest) => matchLayout toks rest { acc with day := v }
      | none => none
    | .hour2 =>
      match getnum true l with
      | some (v, rest) => matchLayout toks rest { acc with hour := v }
      | none => none
    | .minute2 =>
      match getnum true l with
      | some (v, rest) => matchLayout toks rest { acc with minute := v }
      | none => none
    | .second2 =>
      match getnum true l with
      | some (v, rest) => matchLayout toks rest { acc with second := v }
      | none => none
    | .isoColonTZ =>
      match l with
      | 'Z' :: rest => matchLayout toks rest acc
      | sgn :: h1 :: h2 :: ':' :: m1 :: m2 :: rest =>
        if (sgn = '+' || sgn = '-') && isDigit h1 && isDigit h2 &&
            isDigit m1 && isDigit m2 then
          matchLayout toks rest acc
        else none
      | _ => none

/-- Days in a month, with Gregorian leap years (Go `time`'s validation). -/
def daysIn (year month : Nat) : Nat :=
  if month = 2 then
    if year % 4 = 0 && (year % 100 ≠ 0 || year % 400 = 0) then 29 else 28
  else if month = 4 || month = 6 || month = 9 || month = 11 then 30
  else 31

/-- Range validation performed by `time.Parse` on the collected components. -/
def partsValid (p : DateParts) : Bool :=
  1 ≤ p.month && p.month ≤ 12 && 1 ≤ p.day && p.day ≤ daysIn p.year p.month &&
    p.hour ≤ 23 && p.minute ≤ 59 && p.second ≤ 59

/-- Tries one layout. -/
def layoutOk (toks : List LayoutTok) (l : List Char) : Bool :=
  match matchLayout toks l ⟨1, 1, 1, 0, 0, 0⟩ with
  | some p => partsValid p
  | none => false

/-- The `dateFormats` list: 2006-01-02, 01-02-2006, 01-02-06, 01/02/2006,
01/02/06, 1/2/06. -/
def dateFormats : List (List LayoutTok) :=
  [[.year4, .lit '-', .month2, .lit '-', .day2],
   [.month2, .lit '-', .day2, .lit '-', .year4],
   [.month2, .lit '-', .day2, .lit '-', .year2],
   [.month2, .lit '/', .day2, .lit '/', .year4],
   [.month2, .lit '/', .day2, .lit '/', .year2],
   [.month1, .lit '/', .day1, .lit '/', .year2]]

/-- The `dateTimeFormats` list: 2006-01-02 15:04, 2006-01-02 15:04:05,
2006-01-02T15:04:05, 2006-01-02T15:04:05Z, 2006-01-02T15:04:05Z07:00. -/
def dateTimeFormats : List (List LayoutTok) :=
  [[.year4, .lit '-', .month2, .lit '-', .day2, .lit ' ', .hour2, .lit ':',
    .minute2],
   [.year4, .lit '-', .month2, .lit '-', .day2, .lit ' ', .hour2, .lit ':',
    .minute2, .lit ':', .second2],
   [.year4, .lit '-', .month2, .lit '-', .day2, .lit 'T', .hour2, .lit ':',
    .minute2, .lit ':', .second2],
   [.year4, .lit '-', .month2, .lit '-', .day2, .lit 'T', .hour2, .lit ':',
    .minute2, .lit ':', .second2, .lit 'Z'],
   [.year4, .lit '-', .month2, .lit '-', .day2, .lit 'T', .hour2, .lit ':',
    .minute2, .lit ':', .second2, .isoColonTZ]]

/-- `profile.ParseDate`: TrimSpace, then the ordered layout list; first
match wins. -/
def parseDateOk (s : String) : Bool :=
  dateFormats.any (fun toks => layoutOk toks (trimSpace s))

/-- `profile.ParseDateTime`. -/
def parseDateTimeOk (s : String) : Bool :=
  dateTimeFormats.any (fun toks => layoutOk toks (trimSpace s))

/-! ## profile: the profiler (profile/profiler.go) -/

/-- `hasLeadingZeros` checks if a valid integer value contains leading
zeros. -/
def hasLeadingZeros (s : String) : Bool :=
  match s.toList with
  | [] => false
  | c :: _ => c = '0'

/-- Aggregation state for one field (`profilerField`). The Go `Types` and
`Values` sets are maps; they are modelled as insertion-ordered duplicate-free
lists, and the nil `Values` map as `none`. -/
structure profilerField where
  Name : String
  Types : List ValueType
  Values : Option (List String)
  Unique : Bool
  LeadingZeros : Bool
deriving Repr, DecidableEq

/-- `newProfilerField`. -/
def newProfilerField (name : String) : profilerField :=
  { Name := name, Types := [], Values := some [], Unique := true,
    LeadingZeros := false }

/-- Reading `m[v]` from a possibly-nil Go map. -/
def mapHas (m : Option (List String)) (v : String) : Bool :=
  match m with
  | none => false
  | some vs => vs.contains v

/-- Inserting into a Go string-set map. Insertion into a nil map panics in
Go; the profiler only inserts while `Unique` holds, in which state `Values`
is non-nil (proved below), so the unreachable nil case is mapped to `none`. -/
def mapInsert (m : Option (List String)) (v : String) : Option (List String) :=
  match m with
  | none => none
  | some vs => some (if vs.contains v then vs else v :: vs)

/-- Inserting into the Go `Types` set. -/
def insertType (ts : List ValueType) (t : ValueType) : List ValueType :=
  if ts.contains t then ts else ts ++ [t]

/-- The uniqueness block of `profiler.Record` for the selected field. -/
def uniqueCheck (f : profilerField) (v : String) : profilerField :=
  if f.Unique then
    if mapHas f.Values v then { f with Unique := false, Values := none }
    else { f with Values := mapInsert f.Values v }
  else f

/-- The type-detection block of `profiler.Record` for the selected field:
short-circuit on String, then the parser priority chain. -/
def typeDetect (f : profilerField) (v : String) : profilerField :=
  if f.Types.contains ValueType.StringType then f
  else if parseIntOk v then
    { f with
      LeadingZeros :=
        if !f.LeadingZeros && hasLeadingZeros v then true else f.LeadingZeros,
      Types := insertType f.Types ValueType.IntType }
  else if parseFloatOk v then
    { f with Types := insertType f.Types ValueType.FloatType }
  else if parseBoolOk v then
    { f with Types := insertType f.Types ValueType.BoolType }
  else if parseDateOk v then
    { f with Types := insertType f.Types ValueType.DateType }
  else if parseDateTimeOk v then
    { f with Types := insertType f.Types ValueType.DateTimeType }
  else { f with Types := insertType f.Types ValueType.StringType }

/-- `profiler.Record` restricted to one field's state (the per-field body
after the name lookup). -/
def recordValue (f : profilerField) (v : String) : profilerField :=
  typeDetect (uniqueCheck f v) v

/-- `profiler.RecordType` restricted to one field's state. -/
def recordTypeValue (f : profilerField) (t : ValueType) : profilerField :=
  { f with Types := insertType f.Types t }

/-- One CSV cell as dispatched by `csv.Profiler.Profile`: an empty string is
recorded as a null value, anything else goes through `Record`. -/
def recordCell (f : profilerField) (v : String) : profilerField :=
  if v = "" then recordTypeValue f ValueType.NullType else recordValue f v

/-- The profile of one column after a sequence of cells. -/
def processValues (name : String) (vs : List String) : profilerField :=
  vs.foldl recordCell (newProfilerField name)

/-- `profilerField.Type`: the most specific type this field satisfies. -/
def profilerField.fieldType (f : profilerField) : ValueType :=
  if f.LeadingZeros then ValueType.StringType
  else
    f.Types.foldl
      (fun g t => if g = ValueType.UnknownType then t else GeneralizeType t g)
      ValueType.UnknownType

/-- The non-empty cells of a column, in order (empty cells are routed to
RecordType and never touch uniqueness). -/
def nonEmptyVals (vs : List String) : List String :=
  vs.filter (fun v => v != "")

/-- The uniqueness invariant tying a field state to the cells seen so far:
Unique holds exactly when the non-empty cells are pairwise distinct, and the
Values set is populated (with exactly the non-empty cells) iff Unique still
holds. -/
def UniqueInv (f : profilerField) (seen : List String) : Prop :=
  (f.Unique = true ↔ (nonEmptyVals seen).Nodup) ∧
  (∀ vsl, f.Values = some vsl →
    f.Unique = true ∧ ∀ v, v ∈ vsl ↔ v ∈ nonEmptyVals seen) ∧
  (f.Values = none → f.Unique = false)

/-! ## profile/csv/parser.go: the CSV reader -/

/-- The four field-level CSV errors. -/
inductive CSVErr where
  | unquotedField
  | unescapedQuote
  | unterminatedField
  | extraColumns
deriving DecidableEq, Repr

/-- State of the CSV reader. Go's bufio line scanner is modelled by the
list of remaining input lines (a line never contains a newline); `[]byte`
fields are `List Char` over ASCII input and the nil token is the empty
list. -/
structure CSVReader where
  continueOnError : Bool
  sep : Char
  eor : Bool
  lineno : Nat
  column : Nat
  eof : Bool
  err : Option CSVErr
  line : List Char
  token : List Char
  data : List Char
  trail : Bool
  lines : List (List Char)
deriving DecidableEq, Repr

/-- `NewCSVReader`. -/
def NewCSVReader (lines : List (List Char)) (sep : Char) : CSVReader :=
  { continueOnError := true, sep := sep, eor := true, lineno := 0,
    column := 0, eof := false, err := none, line := [], token := [],
    data := [], trail := false, lines := lines }

/-- The copying loop of `unescapeQuotes`: emits each byte and skips the
second quote of a doubled pair. -/
def unescapeCopy : List Char → List Char
  | [] => []
  | c :: rest =>
    if c = '"' then
      match rest with
      | d :: rest2 =>
        if d = '"' then c :: unescapeCopy rest2
        else c :: unescapeCopy (d :: rest2)
      | [] => [c]
    else c :: unescapeCopy rest

/-- `unescapeQuotes(b, count)`. -/
def unescapeQuotes (b : List Char) (count : Nat) : List Char :=
  if count = 0 then b else (unescapeCopy b).take (b.length - count)

/-- Result of the quoted-field scanning loop of `scanField`: the field ends
at a closing quote followed by the separator at index `i`, or the loop ran
out of bytes with `c` as the last byte examined, or a bare-quote error. -/
inductive QuotedRes where
  | fieldEnd (i : Nat) (eq : Nat)
  | exhausted (c : Char) (eq : Nat)
  | errRes (e : CSVErr)
deriving DecidableEq, Repr

/-- The quoted-field loop of `scanField` over `data[1:]`: `i` is the index
of the head of the remaining bytes within the field data, `eq` counts
escaped quote pairs, `oq` is the open-quote flag, and `c`/`pc` carry the
current and previous byte (zero bytes initially, as the Go zero values). -/
def quotedScan (sep : Char) :
    List Char → Nat → Nat → Bool → Char → Char → QuotedRes
  | [], _, eq, _, c, _ => .exhausted c eq
  | ch :: rest, i, eq, oq, _, pc =>
    if ch = '"' ∧ pc = '"' then
      quotedScan sep rest (i + 1) (eq + 1) false ch (Char.ofNat 0)
    else if ch = '"' ∧ oq = true then .errRes .unescapedQuote
    else if pc = '"' ∧ ch = sep then .fieldEnd i eq
    else quotedScan sep rest (i + 1) eq (if ch = '"' then true else oq) ch ch

/-- Result of the unquoted-field loop of `scanField`: separator found at
index `i`, a bare quote, or the line ran out. -/
inductive UnquotedRes where
  | sepAt (i : Nat)
  | quoteErr
  | exhausted
deriving DecidableEq, Repr

/-- The unquoted-field loop of `scanField`. -/
def unquotedScan (sep : Char) : List Char → Nat → UnquotedRes
  | [], _ => .exhausted
  | c :: rest, i =>
    if c = sep then .sepAt i
    else if c = '"' then .quoteErr
    else unquotedScan sep rest (i + 1)

/-- Return record of `scanField`: bytes consumed, token, trailing-separator
flag, error. -/
structure ScanFieldRes where
  adv : Nat
  token : List Char
  trail : Bool
  err : Option CSVErr
deriving DecidableEq, Repr

/-- `scanField`: consumes one field from the remaining bytes of the current
line, updating the column/line counters, the end-of-record flag and the
trailing-separator special case. -/
def scanField (s : CSVReader) (data : List Char) : CSVReader × ScanFieldRes :=
  if s.trail then
    ({ s with column := s.column + 1, eor := true, trail := false },
      ⟨0, data, false, none⟩)
  else if data.length = 0 then
    (s, ⟨0, [], false, none⟩)
  else
    let s1 := if s.eor then { s with column := 0, lineno := s.lineno + 1 }
      else s
    let s2 := { s1 with column := s1.column + 1, eor := false }
    if data.headD (Char.ofNat 0) = '"' then
      match quotedScan s2.sep (data.drop 1) 1 0 false (Char.ofNat 0)
          (Char.ofNat 0) with
      | .fieldEnd i eq =>
        (s2, ⟨i + 1, unescapeQuotes ((data.drop 1).take (i - 2)) eq, true,
          none⟩)
      | .errRes e => (s2, ⟨0, [], false, some e⟩)
      | .exhausted c eq =>
        if c = '"' then
          ({ s2 with eor := true },
            ⟨data.length,
              unescapeQuotes ((data.drop 1).take (data.length - 2)) eq,
              false, none⟩)
        else ({ s2 with eor := true }, ⟨0, [], false, some .unterminatedField⟩)
    else
      match unquotedScan s2.sep data 0 with
      | .sepAt i => ({ s2 with eor := false }, ⟨i + 1, data.take i, true, none⟩)
      | .quoteErr => (s2, ⟨0, [], false, some .unquotedField⟩)
      | .exhausted =>
        ({ s2 with eor := true }, ⟨data.length, data, false, none⟩)

/-- The line-fetching loop inside `Scan`: pops lines until a non-empty one;
`none` when the underlying scanner is exhausted. -/
def scanLines : List (List Char) → Option (List Char × List (List Char))
  | [] => none
  | l :: ls => if l = [] then scanLines ls else some (l, ls)

/-- `Scan`: advance to the next field; returns the updated reader and
whether a field was yielded. -/
def CSVReader.Scan (s0 : CSVReader) : CSVReader × Bool :=
  if s0.err.isSome = true ∧ s0.continueOnError = false then (s0, false)
  else if s0.eof = true ∧ s0.data = [] then (s0, false)
  else
    let s1 :=
      if s0.eor then
        match scanLines s0.lines with
        | none => { s0 with line := [], data := [], token := [], eof := true, lines := [] }
        | some (l, ls) => { s0 with line := l, data := l, token := [], lines := ls }
      else s0
    let p : CSVReader × ScanFieldRes := scanField s1 s1.data
    let r : ScanFieldRes := p.2
    let s3 : CSVReader := { p.1 with data := s1.data.drop r.adv, err := r.err }
    let s4 : CSVReader :=
      if r.trail = true ∧ s3.data = [] then { s3 with trail := true } else s3
    match r.err with
    | none =>
      let s5 := { s4 with token := r.token }
      if s5.trail = false ∧ s5.eof = true ∧ s5.data = [] then (s5, false)
      else (s5, true)
    | some _ =>
      if s4.continueOnError then
        let s5 := { s4 with token := s4.data, eor := true }
        if s5.trail = false ∧ s5.eof = true ∧ s5.data = [] then (s5, false)
        else (s5, true)
      else (s4, false)

/-- `Text`. -/
def CSVReader.Text (s : CSVReader) : List Char := s.token

/-- `EndOfRecord`. -/
def CSVReader.EndOfRecord (s : CSVReader) : Bool := s.eor

/-- The error kinds reported by `Err`: a field error, or io.EOF. -/
inductive ReadErr where
  | fieldErr (e : CSVErr)
  | eofErr
deriving DecidableEq, Repr

/-- `Err` (the underlying scanner never errors on in-memory input). -/
def CSVReader.ErrState (s : CSVReader) : Option ReadErr :=
  match s.err with
  | some e => some (.fieldErr e)
  | none => if s.eof then some .eofErr else none

/-- Runs `Scan` up to `fuel` times, collecting (token, endOfRecord, err)
for each yielded field — the shape of the scan loops in the package's
tests. -/
def scanN (s : CSVReader) : Nat → List (List Char × Bool × Option CSVErr)
  | 0 => []
  | fuel + 1 =>
    let p := s.Scan
    if p.2 then (p.1.token, p.1.eor, p.1.err) :: scanN p.1 fuel else []

/-- Builds a comma-separated line from a list of fields (the shape of the
input lines in the trailing-separator scenario). -/
def joinComma : List (List Char) → List Char
  | [] => []
  | [f] => f
  | f :: rest => f ++ ',' :: joinComma rest

/-! ## pg.go: column partitioning -/

/-- `splitN`: number of full parts and the remainder. -/
def splitN (l n : Nat) : Nat × Nat :=
  if n > l then (1, 0) else (l / n, l % n)

/-- `splitColumns`: split an ordered column list into contiguous chunks of
`n` columns plus a remainder chunk (pg.go). -/
def splitColumns {α : Type} (columns : List α) (n : Nat) : List (List α) :=
  if n ≥ columns.length then [columns]
  else
    let pr := splitN columns.length n
    let parts :=
      (List.range pr.1).map (fun i => (columns.drop (i * n)).take n)
    if pr.2 > 0 then parts ++ [columns.drop (pr.1 * n)] else parts

/-! ## pg.go: schema building and the database client

The database is modelled abstractly: the committed state is the set of
schemas, the tables (column list and rows keyed by (schema, table)), the
views, and a log of the executed operations. Each helper of pg.go runs
inside execTx: on success its effect is applied atomically, on failure the
caller keeps the previous state (rollback). The engine behaviour modelled
is what pg.go inspects: the create-table column-count limit (the
"tables can have at most 1600 columns" error). Bulk-copy failures arise
from the input stream (csv read errors); driver-level send and commit
failures are not modelled. Cells are nullable strings; the synthetic row
id is stored in decimal form. -/

/-- `profile.Field` (per-column profile statistics). -/
structure PField where
  Index : Nat
  Typ : ValueType
  Nullable : Bool
  Missing : Bool
  Unique : Bool
  LeadingZeros : Bool
deriving Repr, DecidableEq

/-- `profile.Profile`; the Go field map is an association list here. -/
structure Profile where
  RecordCount : Nat
  Fields : List (String × PField)
deriving Repr, DecidableEq

/-- The `sqlTypeMap` of pg.go; the types absent from the Go map (Binary,
Object) hit the map's zero value, the empty string. -/
def sqlTypeMap : ValueType → String
  | ValueType.UnknownType => "integer"
  | ValueType.BoolType => "boolean"
  | ValueType.StringType => "text"
  | ValueType.IntType => "integer"
  | ValueType.FloatType => "real"
  | ValueType.DateType => "date"
  | ValueType.DateTimeType => "timestamp"
  | ValueType.NullType => "text"
  | _ => ""

/-- `Field` (a data definition on a schema, pg.go). -/
structure Field where
  Name : String
  Typ : String
  Multiple : Bool
  Unique : Bool
  Nullable : Bool
deriving Repr, DecidableEq

/-- The field built by `NewSchema` for one profile entry. -/
def mkSchemaField (n : String) (f : PField) : Field :=
  { Name := n, Typ := sqlTypeMap f.Typ, Multiple := false,
    Unique := f.Unique, Nullable := f.Nullable || f.Missing }

/-- One step of `NewSchema`'s loop: `fields[f.Index] = &Field{...}`. A Go
slice write out of bounds panics, modelled as `none`. -/
def newSchemaStep (acc : Option (List (Option Field)))
    (nf : String × PField) : Option (List (Option Field)) :=
  acc.bind (fun fields =>
    if nf.2.Index < fields.length then
      some (fields.set nf.2.Index (some (mkSchemaField nf.1 nf.2)))
    else none)

/-- `NewSchema`: allocates a `[]*Field` slice of length `len(p.Fields)`
(all nil) and writes each field at its `Index`. The result keeps the
possibly-nil slots of the Go slice; an out-of-range index is the panic
case, `none`. -/
def NewSchema (p : Profile) : Option (List (Option Field)) :=
  p.Fields.foldl newSchemaStep
    (some (List.replicate p.Fields.length (none : Option Field)))

/-- One threaded step of `lastIdxAux`. -/
def lastIdxAux (n : String) : List String → Nat → Nat → Nat
  | [], _, acc => acc
  | x :: rest, i, acc => lastIdxAux n rest (i + 1) (if x = n then i else acc)

/-- The index finally held by field `n` after csv `Profiler.Profile`'s
`for idx, name := range header` loop (the last occurrence wins). -/
def lastIndexOf (l : List String) (n : String) : Nat := lastIdxAux n l 0 0

/-- `strings.ToLower` over the ASCII inputs in scope, built character by
character. -/
def goToLower (s : String) : String := String.mk (s.toList.map Char.toLower)

/-- The (name, Index) assignment produced by csv `Profiler.Profile`: the
profiler keys fields by lowercased name, and the trailing loop writes the
header position, so each distinct lowercased name ends up with its last
header position. -/
def headerIndexes (record : List String) : List (String × Nat) :=
  let header := record.map goToLower
  header.dedup.map (fun n => (n, lastIndexOf header n))

/-- A profile whose fields carry the Index assignment of csv
`Profiler.Profile` over the given header record; the per-field statistics
are an arbitrary base. -/
def indexedProfile (record : List String) (base : PField) : Profile :=
  { RecordCount := 0,
    Fields := (headerIndexes record).map
      (fun q => (q.1, { base with Index := q.2 })) }

/-- Loader-side schema (pg.go `Schema`); the Go `[]*Field` holds non-nil
entries on the Replace path, so fields are carried directly. -/
structure Schema where
  Cstore : Bool
  Fields : List Field
deriving Repr, DecidableEq

/-- `rowIdColumn`. -/
def rowIdColumn : String := "_row_id"

/-- `pgMaxTargetListSize`. -/
def pgMaxTargetListSize : Nat := 1664

/-- The engine's per-table column limit behind the error string pg.go
matches. -/
def pgMaxTableColumns : Nat := 1600

/-- `badChars`: characters outside `[a-z0-9_\-.+]`. -/
def isBadChar (c : Char) : Bool :=
  !(('a' ≤ c && c ≤ 'z') || ('0' ≤ c && c ≤ '9') || c = '_' || c = '-' ||
    c = '.' || c = '+')

/-- `sepChars`: the characters `[_\-.+]`. -/
def isSepChar (c : Char) : Bool :=
  c = '_' || c = '-' || c = '.' || c = '+'

/-- `ReplaceAllString(.., "_")` for a character-class-plus pattern: each
maximal run of matching characters becomes one underscore. The Boolean
tracks whether the scan is inside a run already replaced. -/
def replaceRunsAux (p : Char → Bool) : Bool → List Char → List Char
  | _, [] => []
  | inRun, c :: rest =>
    if p c then
      if inRun then replaceRunsAux p true rest
      else '_' :: replaceRunsAux p true rest
    else c :: replaceRunsAux p false rest

def replaceRuns (p : Char → Bool) (l : List Char) : List Char :=
  replaceRunsAux p false l

/-- `cleanFieldName`: lowercase, collapse runs of bad characters to `_`,
collapse runs of separator characters to `_`. -/
def cleanFieldName (n : String) : String :=
  String.mk (replaceRuns isSepChar
    (replaceRuns isBadChar (n.toList.map Char.toLower)))

/-- `fmt.Sprintf("%s_%d", table, i)`. -/
def partName (table : String) (i : Nat) : String :=
  table ++ "_" ++ toString i

/-- A table: its columns and rows. -/
structure Table where
  cols : List String
  rows : List (List (Option String))
deriving Repr, DecidableEq

/-- Logged database operations. -/
inductive DbOp where
  | createSchemaOp (schema : String)
  | createTableOp (schema table : String) (ncols : Nat)
  | dropTableOp (schema table : String)
  | dropViewOp (schema view : String)
  | renameOp (schema tempTable table : String)
  | createViewOp (schema view : String)
  | analyzeOp (schema table : String)
  | copyBeginOp (i : Nat)
  | copyCommitOp (i : Nat)
  | copyRollbackOp (i : Nat)
deriving Repr, DecidableEq

/-- Abstract committed database state plus the operation log. -/
structure DB where
  schemas : List String
  tables : List ((String × String) × Table)
  views : List (String × String)
  log : List DbOp
deriving Repr, DecidableEq

/-- Errors surfaced by the modelled engine and client. -/
inductive DbErr where
  | tooManyColumns
  | copyHeaderErr
  | copyRowErr
  | partitionFailure
deriving Repr, DecidableEq

def lookupTable (db : DB) (k : String × String) : Option Table :=
  (db.tables.find? (fun e => e.1 == k)).map (fun e => e.2)

def setTable (db : DB) (k : String × String) (t : Table) : DB :=
  { db with tables := db.tables.filter (fun e => e.1 != k) ++ [(k, t)] }

/-- `createSchema` (`create schema if not exists`): always succeeds. -/
def execCreateSchema (db : DB) (schema : String) : DB :=
  { db with
    schemas :=
      if db.schemas.contains schema then db.schemas
      else db.schemas ++ [schema],
    log := db.log ++ [DbOp.createSchemaOp schema] }

/-- `createSingleTable` (`create table if not exists`): fails when the
engine's column limit is exceeded, otherwise creates the table when
absent. -/
def createSingleTable (db : DB) (schema table : String)
    (cols : List String) : Except DbErr DB :=
  if cols.length > pgMaxTableColumns then Except.error DbErr.tooManyColumns
  else
    let db1 :=
      { db with log := db.log ++ [DbOp.createTableOp schema table cols.length] }
    match lookupTable db (schema, table) with
    | some _ => Except.ok db1
    | none => Except.ok (setTable db1 (schema, table) ⟨cols, []⟩)

/-- The `for i, cols := range splitColumns` loop of the multi-part branch
of `createTableSplits`: part `i` gets the `_row_id` column prepended and a
`_<i>` name suffix. -/
def createParts (schema table : String) :
    DB → Nat → List (List String) → Except DbErr DB
  | db, _, [] => Except.ok db
  | db, i, cols :: rest =>
    match createSingleTable db schema (partName table i)
        (rowIdColumn :: cols) with
    | Except.error e => Except.error e
    | Except.ok db2 => createParts schema table db2 (i + 1) rest

/-- `createTableSplits`: one table when a single split, otherwise all part
tables inside one transaction (all-or-nothing; the caller keeps the
previous state on error). -/
def createTableSplits (db : DB) (schema table : String)
    (splitCols : List (List String)) : Except DbErr DB :=
  if splitCols.length = 1 then
    createSingleTable db schema table (splitCols.headD [])
  else createParts schema table db 0 splitCols

/-- `partSizes`. -/
def partSizes : List Nat := [924, 249]

/-- The retry loop of `createTable`: try each cap, retrying on the
column-limit error; any other error is fatal; no cap left is the
"failed to partition columns" error. -/
def tryPartSizes (db : DB) (schema table : String) (columns : List String) :
    List Nat → DB × Except DbErr (List (List String))
  | [] => (db, Except.error DbErr.partitionFailure)
  | size :: rest =>
    let columnSplits := splitColumns columns size
    match createTableSplits db schema table columnSplits with
    | Except.ok db2 => (db2, Except.ok columnSplits)
    | Except.error e =>
      if e = DbErr.tooManyColumns then
        tryPartSizes db schema table columns rest
      else (db, Except.error e)

/-- `createTable`: clean the field names, then try the partition caps.
(The per-column DDL text — types and unique/not-null constraints — only
affects the SQL string and is not part of the abstract state.) -/
def createTable (db : DB) (schema table : String) (tableSchema : Schema) :
    DB × Except DbErr (List (List String)) :=
  let columns := tableSchema.Fields.map (fun f => cleanFieldName f.Name)
  tryPartSizes db schema table columns partSizes

/-- The bulk-copy input: the header line and the data records, a `none`
standing for a csv read error at that point. -/
structure CopyIn where
  header : Option (List String)
  rows : List (Option (List String))
deriving Repr, DecidableEq

/-- The records readable before the first read error; `none` when a read
error occurs. -/
def goodRows : List (Option (List String)) → Option (List (List String))
  | [] => some []
  | none :: _ => none
  | some r :: rest => (goodRows rest).map (fun rs => r :: rs)

/-- Empty strings are sent as NULL. -/
def cellVal (v : String) : Option String :=
  if v = "" then none else some v

/-- The slice of a record sent to one partition. -/
def sliceRow (row : List String) (low len : Nat) : List (Option String) :=
  ((row.drop low).take len).map cellVal

/-- Appends committed rows to a table (the target exists on the Replace
path, which created it; a missing target would be a prepare error). -/
def appendRows (db : DB) (k : String × String)
    (newRows : List (List (Option String))) : DB :=
  match lookupTable db k with
  | some t => setTable db k ⟨t.cols, t.rows ++ newRows⟩
  | none => db

/-- Commit of the single-table copy: each record's cells, empty mapped to
NULL, truncated to the table width. -/
def commitSingleCopy (db : DB) (schema table : String) (width : Nat)
    (rows : List (List String)) : DB :=
  let db2 := appendRows db (schema, table)
    (rows.map (fun row => (row.map cellVal).take width))
  { db2 with log := db2.log ++ [DbOp.copyCommitOp 0] }

/-- Commit of the multi-part copy: partition `i` receives the row id and
its contiguous slice of each record. -/
def commitParts (schema table : String) (rows : List (List String)) :
    DB → Nat → Nat → List (List String) → DB
  | db, _, _, [] => db
  | db, i, low, cols :: restCols =>
    let newRows := rows.enum.map
      (fun p => some (toString (p.1 + 1)) :: sliceRow p.2 low cols.length)
    let db2 := appendRows db (schema, partName table i) newRows
    let db3 := { db2 with log := db2.log ++ [DbOp.copyCommitOp i] }
    commitParts schema table rows db3 (i + 1) (low + cols.length) restCols

/-- `copyData`: read and discard the header, begin one transaction per
partition, stream the records, and either commit all partitions or (on a
read error) roll back every transaction, leaving the tables unchanged.
The deferred rollbacks also run after a successful commit, where they are
no-ops. -/
def copyData (db : DB) (schema table : String)
    (tableColumns : List (List String)) (input : CopyIn) :
    DB × Except DbErr Nat :=
  match input.header with
  | none => (db, Except.error DbErr.copyHeaderErr)
  | some _ =>
    let k := tableColumns.length
    let db1 := { db with log := db.log ++ (List.range k).map DbOp.copyBeginOp }
    match goodRows input.rows with
    | none =>
      ({ db1 with
          log := db1.log ++ (List.range k).map DbOp.copyRollbackOp },
        Except.error DbErr.copyRowErr)
    | some rows =>
      let db2 :=
        if k = 1 then
          commitSingleCopy db1 schema table (tableColumns.headD []).length rows
        else commitParts schema table rows db1 0 0 tableColumns
      ({ db2 with
          log := db2.log ++ (List.range k).map DbOp.copyRollbackOp },
        Except.ok rows.length)

/-- `dropView` (`drop view if exists`). -/
def execDropView (db : DB) (schema view : String) : DB :=
  { db with
    views := db.views.filter (fun v => v != (schema, view)),
    log := db.log ++ [DbOp.dropViewOp schema view] }

/-- `dropTable` (`drop table if exists`). -/
def execDropTable (db : DB) (schema table : String) : DB :=
  { db with
    tables := db.tables.filter (fun e => e.1 != (schema, table)),
    log := db.log ++ [DbOp.dropTableOp schema table] }

/-- `renameSingleTable`: drop the target, then rename the temp table onto
it (renaming a missing temp table would be a SQL error; on the Replace
path the temp table exists). -/
def execRenameSingle (db : DB) (schema tempTable table : String) : DB :=
  let db1 := execDropTable db schema table
  match lookupTable db1 (schema, tempTable) with
  | some t =>
    let db2 :=
      { db1 with tables := db1.tables.filter (fun e => e.1 != (schema, tempTable)) }
    { setTable db2 (schema, table) t with
        log := db2.log ++ [DbOp.renameOp schema tempTable table] }
  | none => db1

/-- `renameTable`: one rename, or one per part. -/
def renameTable (db : DB) (schema tempTable table : String)
    (tableParts : Nat) : DB :=
  if tableParts = 1 then execRenameSingle db schema tempTable table
  else
    (List.range tableParts).foldl
      (fun d i => execRenameSingle d schema (partName tempTable i)
        (partName table i)) db

/-- `createView` (`create or replace view`). -/
def execCreateView (db : DB) (schema view : String) : DB :=
  { db with
    views :=
      if db.views.contains (schema, view) then db.views
      else db.views ++ [(schema, view)],
    log := db.log ++ [DbOp.createViewOp schema view] }

/-- `analyzeTable`: analyze the table, or each part. -/
def analyzeTable (db : DB) (schema table : String)
    (tableColumns : List (List String)) : DB :=
  if tableColumns.length = 1 then
    { db with log := db.log ++ [DbOp.analyzeOp schema table] }
  else
    (List.range tableColumns.length).foldl
      (fun d i => { d with log := d.log ++ [DbOp.analyzeOp schema (partName table i)] })
      db

/-- `Replace` (pg.go): create schema, create the UUID-named temp tables,
bulk copy, then drop view and table at the target name, rename, create the
union view when a multi-part split fits the target-list limit, and
analyze. Any error returns immediately with the state reached so far. -/
def Replace (db : DB) (schemaName tableName tempTableName : String)
    (tableSchema : Schema) (data : CopyIn) : DB × Except DbErr Nat :=
  let db1 := execCreateSchema db schemaName
  match createTable db1 schemaName tempTableName tableSchema with
  | (db2, Except.error e) => (db2, Except.error e)
  | (db2, Except.ok splits) =>
    match copyData db2 schemaName tempTableName splits data with
    | (db3, Except.error e) => (db3, Except.error e)
    | (db3, Except.ok n) =>
      let db4 := execDropView db3 schemaName tableName
      let db5 := execDropTable db4 schemaName tableName
      let db6 := renameTable db5 schemaName tempTableName tableName
        splits.length
      let db7 :=
        if splits.length > 1 ∧
            tableSchema.Fields.length + splits.length ≤ pgMaxTargetListSize
        then execCreateView db6 schemaName tableName
        else db6
      (analyzeTable db7 schemaName tableName splits, Except.ok n)

/-- The temp table names created for a split count. -/
def tempNames (table : String) (k : Nat) : List String :=
  if k = 1 then [table] else (List.range k).map (partName table)

/-- Whether the copy input carries a read error. -/
def hasInputError (input : CopyIn) : Bool :=
  input.header.isNone || input.rows.any Option.isNone

/-- The 2000-column schema of scenario S4. -/
def wide2000 : Schema :=
  ⟨false, List.replicate 2000 ⟨"c", "text", false, false, true⟩⟩

end SqlImporter

namespace SqlImporter

open ValueType

/-- C6: GeneralizeType is commutative and idempotent, String is absorbing
(including against Null), and Null is an identity. -/
theorem generalizeType_lattice_laws :
    (∀ a b : ValueType, GeneralizeType a b = GeneralizeType b a) ∧
    (∀ a : ValueType, GeneralizeType a a = a) ∧
    (∀ t : ValueType, GeneralizeType StringType t = StringType) ∧
    (∀ t : ValueType, GeneralizeType NullType t = t) := by
  refine ⟨?_, ?_, ?_, ?_⟩ <;> decide

/-! ### Profiler helper lemmas -/

theorem uniqueCheck_Types (f : profilerField) (v : String) :
    (uniqueCheck f v).Types = f.Types := by
  unfold uniqueCheck; split_ifs <;> rfl

theorem uniqueCheck_LeadingZeros (f : profilerField) (v : String) :
    (uniqueCheck f v).LeadingZeros = f.LeadingZeros := by
  unfold uniqueCheck; split_ifs <;> rfl

theorem typeDetect_Unique (f : profilerField) (v : String) :
    (typeDetect f v).Unique = f.Unique := by
  unfold typeDetect; split_ifs <;> rfl

theorem typeDetect_Values (f : profilerField) (v : String) :
    (typeDetect f v).Values = f.Values := by
  unfold typeDetect; split_ifs <;> rfl

theorem recordValue_Unique (f : profilerField) (v : String) :
    (recordValue f v).Unique = (uniqueCheck f v).Unique := by
  unfold recordValue; rw [typeDetect_Unique]

theorem recordValue_Values (f : profilerField) (v : String) :
    (recordValue f v).Values = (uniqueCheck f v).Values := by
  unfold recordValue; rw [typeDetect_Values]

theorem mem_insertType {t t' : ValueType} {ts : List ValueType} :
    t ∈ insertType ts t' ↔ t ∈ ts ∨ t = t' := by
  unfold insertType
  split_ifs with h
  · simp only [List.contains_iff_exists_mem_beq, beq_iff_eq] at h
    obtain ⟨a, ha, rfl⟩ := h
    constructor
    · exact fun hm => Or.inl hm
    · rintro (hm | rfl) <;> assumption
  · simp [List.mem_append]

theorem contains_iff_memT {t : ValueType} {ts : List ValueType} :
    ts.contains t = true ↔ t ∈ ts := by
  simp [List.contains_iff_exists_mem_beq]

theorem typeDetect_types_mono {t : ValueType} (f : profilerField) (v : String)
    (h : t ∈ f.Types) : t ∈ (typeDetect f v).Types := by
  unfold typeDetect
  split_ifs <;> simp_all [mem_insertType]

theorem recordCell_types_mono {t : ValueType} (f : profilerField) (v : String)
    (h : t ∈ f.Types) : t ∈ (recordCell f v).Types := by
  unfold recordCell
  split_ifs
  · simpa [recordTypeValue, mem_insertType] using Or.inl h
  · unfold recordValue
    exact typeDetect_types_mono _ _ (by rwa [uniqueCheck_Types])

theorem typeDetect_leadingZeros_mono (f : profilerField) (v : String)
    (h : f.LeadingZeros = true) : (typeDetect f v).LeadingZeros = true := by
  unfold typeDetect
  split_ifs <;> simp_all

theorem recordCell_leadingZeros_mono (f : profilerField) (v : String)
    (h : f.LeadingZeros = true) : (recordCell f v).LeadingZeros = true := by
  unfold recordCell
  split_ifs
  · simpa [recordTypeValue]
  · unfold recordValue
    exact typeDetect_leadingZeros_mono _ _ (by rwa [uniqueCheck_LeadingZeros])

theorem recordCell_string_free (f : profilerField) (v : String)
    (hS : ValueType.StringType ∉ f.Types)
    (hv : v = "" ∨ parseIntOk v = true) :
    ValueType.StringType ∉ (recordCell f v).Types := by
  unfold recordCell
  rcases hv with rfl | hint
  · simp only [if_pos rfl, recordTypeValue]
    simp [mem_insertType, hS]
  · have hne : v ≠ "" := by
      intro h; rw [h] at hint; exact absurd hint (by decide)
    rw [if_neg hne]
    unfold recordValue typeDetect
    rw [uniqueCheck_Types]
    rw [if_neg (by simp [contains_iff_memT, hS]), if_pos hint]
    simp [mem_insertType, hS]

theorem recordValue_sets_flag (f : profilerField) (v : String)
    (hS : ValueType.StringType ∉ f.Types)
    (hint : parseIntOk v = true) (hz : hasLeadingZeros v = true) :
    (recordValue f v).LeadingZeros = true := by
  unfold recordValue typeDetect
  rw [if_neg (by rw [uniqueCheck_Types]; simp [contains_iff_memT, hS]),
    if_pos hint]
  simp [hz]

theorem generalize_string_right :
    ∀ t : ValueType, GeneralizeType t StringType = StringType := by decide

theorem generalize_string_left :
    ∀ t : ValueType, GeneralizeType StringType t = StringType := by decide

theorem foldl_generalize_from_string (ts : List ValueType) :
    ts.foldl
      (fun g t => if g = UnknownType then t else GeneralizeType t g)
      StringType = StringType := by
  induction ts with
  | nil => rfl
  | cons t ts ih =>
    simp only [List.foldl_cons, if_neg (by decide : StringType ≠ UnknownType),
      generalize_string_right t, ih]

theorem foldl_generalize_mem_string (ts : List ValueType) :
    ∀ acc : ValueType, StringType ∈ ts →
      ts.foldl
        (fun g t => if g = UnknownType then t else GeneralizeType t g)
        acc = StringType := by
  induction ts with
  | nil => intro acc h; cases h
  | cons t ts ih =>
    intro acc h
    rcases List.mem_cons.mp h with rfl | hmem
    · simp only [List.foldl_cons]
      have : (if acc = UnknownType then StringType
          else GeneralizeType StringType acc) = StringType := by
        split_ifs <;> simp [generalize_string_left]
      rw [this, foldl_generalize_from_string]
    · simp only [List.foldl_cons]
      exact ih _ hmem

theorem fieldType_of_leadingZeros (f : profilerField)
    (h : f.LeadingZeros = true) : f.fieldType = StringType := by
  unfold profilerField.fieldType
  rw [h]; rfl

theorem fieldType_of_string_mem (f : profilerField)
    (h : StringType ∈ f.Types) : f.fieldType = StringType := by
  unfold profilerField.fieldType
  split_ifs
  · rfl
  · exact foldl_generalize_mem_string _ _ h

theorem foldl_recordCell_leadingZeros (vs : List String) :
    ∀ f : profilerField, f.LeadingZeros = true →
      (vs.foldl recordCell f).LeadingZeros = true := by
  induction vs with
  | nil => intro f h; exact h
  | cons v vs ih =>
    intro f h
    exact ih _ (recordCell_leadingZeros_mono f v h)

theorem foldl_recordCell_string_mem (vs : List String) :
    ∀ f : profilerField, StringType ∈ f.Types →
      StringType ∈ (vs.foldl recordCell f).Types := by
  induction vs with
  | nil => intro f h; exact h
  | cons v vs ih =>
    intro f h
    exact ih _ (recordCell_types_mono f v h)

theorem foldl_recordCell_string_free (vs : List String) :
    ∀ f : profilerField, StringType ∉ f.Types →
      (∀ v ∈ vs, v = "" ∨ parseIntOk v = true) →
      StringType ∉ (vs.foldl recordCell f).Types := by
  induction vs with
  | nil => intro f h _; exact h
  | cons v vs ih =>
    intro f h hall
    exact ih _ (recordCell_string_free f v h (hall v (List.mem_cons_self v vs)))
      (fun w hw => hall w (List.mem_cons_of_mem _ hw))

/-! ### Uniqueness invariant (C4 support) -/

theorem contains_iff_memL {α : Type} [BEq α] [LawfulBEq α] {a : α}
    {l : List α} : l.contains a = true ↔ a ∈ l := by
  simp [List.contains_iff_exists_mem_beq]

theorem nonEmptyVals_append_empty (seen : List String) :
    nonEmptyVals (seen ++ [""]) = nonEmptyVals seen := by
  simp [nonEmptyVals, List.filter_append]

theorem nonEmptyVals_append_ne (seen : List String) {v : String}
    (h : v ≠ "") : nonEmptyVals (seen ++ [v]) = nonEmptyVals seen ++ [v] := by
  simp [nonEmptyVals, List.filter_append, h]

theorem uniqueCheck_dup (f : profilerField) (v : String) {vsl : List String}
    (hu : f.Unique = true) (hVal : f.Values = some vsl) (hin : v ∈ vsl) :
    uniqueCheck f v = { f with Unique := false, Values := none } := by
  unfold uniqueCheck
  rw [if_pos hu, if_pos (by simp [mapHas, hVal, contains_iff_memL, hin])]

theorem uniqueCheck_fresh (f : profilerField) (v : String) {vsl : List String}
    (hu : f.Unique = true) (hVal : f.Values = some vsl) (hin : v ∉ vsl) :
    uniqueCheck f v = { f with Values := some (v :: vsl) } := by
  have hc : vsl.contains v = false := by
    rcases Bool.eq_false_or_eq_true (vsl.contains v) with h | h
    · exact absurd (contains_iff_memL.mp h) hin
    · exact h
  unfold uniqueCheck
  rw [if_pos hu, if_neg (by simp [mapHas, hVal, hc, hin])]
  simp [mapInsert, hVal, hc, hin]

theorem uniqueCheck_not_unique (f : profilerField) (v : String)
    (hu : f.Unique = false) : uniqueCheck f v = f := by
  unfold uniqueCheck
  rw [if_neg (by simp [hu])]

theorem uniqueInv_init (name : String) :
    UniqueInv (newProfilerField name) [] := by
  refine ⟨by simp [newProfilerField, nonEmptyVals], ?_, ?_⟩
  · intro vsl h
    simp only [newProfilerField, Option.some_inj] at h
    subst h
    simp [newProfilerField, nonEmptyVals]
  · intro h
    simp [newProfilerField] at h

theorem uniqueInv_step (f : profilerField) (seen : List String) (v : String)
    (h : UniqueInv f seen) : UniqueInv (recordCell f v) (seen ++ [v]) := by
  obtain ⟨h1, h2, h3⟩ := h
  by_cases hv : v = ""
  · subst hv
    unfold recordCell
    rw [if_pos rfl]
    exact ⟨by simpa [recordTypeValue, nonEmptyVals_append_empty] using h1,
      fun vsl hV => by
        simp only [recordTypeValue] at hV
        simpa [recordTypeValue, nonEmptyVals_append_empty] using h2 vsl hV,
      fun hV => by
        simp only [recordTypeValue] at hV
        simpa [recordTypeValue] using h3 hV⟩
  · rw [recordCell, if_neg hv]
    rw [UniqueInv, recordValue_Unique, recordValue_Values,
      nonEmptyVals_append_ne seen hv]
    by_cases hu : f.Unique = true
    · cases hVal : f.Values with
      | none => exact absurd (h3 hVal) (by simp [hu])
      | some vsl =>
        obtain ⟨-, hmem⟩ := h2 vsl hVal
        have hnd : (nonEmptyVals seen).Nodup := h1.mp hu
        by_cases hin : v ∈ vsl
        · rw [uniqueCheck_dup f v hu hVal hin]
          refine ⟨?_, ?_, fun _ => rfl⟩
          · simp only [show ({ f with Unique := false, Values := none } :
              profilerField).Unique = false from rfl]
            constructor
            · intro hff; cases hff
            · intro hnd2
              obtain ⟨-, -, hdisj⟩ := List.nodup_append.mp hnd2
              exact absurd (hdisj (hmem v |>.mp hin) (List.mem_singleton.mpr rfl))
                (by simp)
          · intro vsl' hV
            cases hV
        · rw [uniqueCheck_fresh f v hu hVal hin]
          have hvne : v ∉ nonEmptyVals seen := fun hc => hin ((hmem v).mpr hc)
          refine ⟨?_, ?_, ?_⟩
          · simp only [show ({ f with Values := some (v :: vsl) } :
              profilerField).Unique = f.Unique from rfl, hu]
            constructor
            · intro _
              refine List.nodup_append.mpr ⟨hnd, List.nodup_singleton v, ?_⟩
              intro a ha hav
              rw [List.mem_singleton.mp hav] at ha
              exact hvne ha
            · intro _; trivial
          · intro vsl' hV
            simp only [Option.some_inj] at hV
            refine ⟨hu, ?_⟩
            intro x
            rw [← hV]
            simp only [List.mem_cons, List.mem_append, List.mem_singleton,
              hmem x]
            tauto
          · intro hV
            cases hV
    · have hu' : f.Unique = false := by
        rcases Bool.eq_false_or_eq_true f.Unique with h | h
        · exact absurd h hu
        · exact h
      rw [uniqueCheck_not_unique f v hu']
      have hnnd : ¬ (nonEmptyVals seen).Nodup := fun hc => hu (h1.mpr hc)
      refine ⟨?_, ?_, fun _ => hu'⟩
      · rw [hu']
        constructor
        · intro hff; cases hff
        · intro hnd2
          obtain ⟨hl, -, -⟩ := List.nodup_append.mp hnd2
          exact absurd hl hnnd
      · intro vsl hV
        exact absurd (h2 vsl hV).1 (by simp [hu'])

theorem uniqueInv_fold (vs : List String) :
    ∀ (f : profilerField) (seen : List String), UniqueInv f seen →
      UniqueInv (vs.foldl recordCell f) (seen ++ vs) := by
  induction vs with
  | nil => intro f seen h; simpa using h
  | cons v vs ih =>
    intro f seen h
    have := ih (recordCell f v) (seen ++ [v]) (uniqueInv_step f seen v h)
    simpa [List.append_assoc] using this

/-- C4: after any sequence of recorded cells a column reports unique=true iff
its non-empty raw values are pairwise distinct, the seenValues set is
populated (non-nil) iff unique still holds, and once unique is false a
further cell never flips it back to true. -/
theorem uniqueness_detection :
    (∀ (name : String) (vs : List String),
      ((processValues name vs).Unique = true ↔ (nonEmptyVals vs).Nodup) ∧
      ((processValues name vs).Values.isSome = (processValues name vs).Unique)) ∧
    ∀ (f : profilerField) (v : String), f.Unique = false →
      (recordCell f v).Unique = false := by
  constructor
  · intro name vs
    obtain ⟨h1, h2, h3⟩ : UniqueInv (processValues name vs) vs := by
      simpa [processValues] using
        uniqueInv_fold vs (newProfilerField name) [] (uniqueInv_init name)
    refine ⟨h1, ?_⟩
    cases hV : (processValues name vs).Values with
    | none => simp [h3 hV]
    | some vsl => simp [(h2 vsl hV).1]
  · intro f v hu
    unfold recordCell
    split_ifs
    · simp [recordTypeValue, hu]
    · rw [recordValue_Unique, uniqueCheck_not_unique f v hu, hu]

theorem uniqueness_detection_witness :
    ((processValues "name" ["Joe", "Sue", ""]).Unique = true) ∧
    ((recordCell ⟨"x", [], none, false, false⟩ "a").Unique = false) :=
  ⟨(uniqueness_detection.1 "name" ["Joe", "Sue", ""]).1.mpr (by decide),
   uniqueness_detection.2 ⟨"x", [], none, false, false⟩ "a" rfl⟩

/-- C5: a column whose non-empty values include "007" and whose other
non-empty values all parse as integers resolves to String: the
integer-parsed value starting with a zero byte sets the leading-zero flag,
which overrides the lattice join. -/
theorem leading_zero_override (name : String) (vs : List String)
    (hmem : "007" ∈ vs)
    (hint : ∀ v ∈ vs, v ≠ "" → parseIntOk v = true) :
    (processValues name vs).fieldType = StringType ∧
    (processValues name vs).LeadingZeros = true := by
  obtain ⟨l, r, rfl⟩ := List.append_of_mem hmem
  have hflag :
      ((l ++ "007" :: r).foldl recordCell (newProfilerField name)).LeadingZeros
        = true := by
    rw [List.foldl_append, List.foldl_cons]
    apply foldl_recordCell_leadingZeros
    have hSl : StringType ∉ (l.foldl recordCell (newProfilerField name)).Types :=
      foldl_recordCell_string_free l _ (by simp [newProfilerField])
        (fun v hv => by
          by_cases hve : v = ""
          · exact Or.inl hve
          · exact Or.inr (hint v (List.mem_append_left _ hv) hve))
    have h007 : recordCell (l.foldl recordCell (newProfilerField name)) "007"
        = recordValue (l.foldl recordCell (newProfilerField name)) "007" := by
      unfold recordCell
      rw [if_neg (by decide)]
    rw [h007]
    exact recordValue_sets_flag _ _ hSl (by decide) (by decide)
  exact ⟨fieldType_of_leadingZeros _ (by simpa [processValues] using hflag),
    by simpa [processValues] using hflag⟩

theorem leading_zero_override_witness :
    (processValues "id" ["007", "12"]).fieldType = StringType ∧
    (processValues "id" ["007", "12"]).LeadingZeros = true :=
  leading_zero_override "id" ["007", "12"] (by decide) (by decide)

/-- C10: a successfully integer-parsed value whose first byte is a zero sets
the leading-zeros flag — in particular the single value "0" does — so any
column containing "0" among its non-empty values resolves to String; a
negative value such as "-007" never sets the flag since its first byte is
the minus sign. -/
theorem zero_sets_leading_flag :
    (∀ f : profilerField, StringType ∉ f.Types →
      (recordValue f "0").LeadingZeros = true) ∧
    (∀ (name : String) (vs : List String), "0" ∈ vs →
      (processValues name vs).fieldType = StringType) ∧
    (∀ f : profilerField,
      (recordValue f "-007").LeadingZeros = f.LeadingZeros) := by
  refine ⟨?_, ?_, ?_⟩
  · intro f hS
    exact recordValue_sets_flag f "0" hS (by decide) (by decide)
  · intro name vs hmem
    obtain ⟨l, r, rfl⟩ := List.append_of_mem hmem
    by_cases hS : StringType ∈ (l.foldl recordCell (newProfilerField name)).Types
    · apply fieldType_of_string_mem
      have h2 := foldl_recordCell_string_mem r _
        (recordCell_types_mono _ "0" hS)
      simpa [processValues, List.foldl_append] using h2
    · have h0 : recordCell (l.foldl recordCell (newProfilerField name)) "0"
          = recordValue (l.foldl recordCell (newProfilerField name)) "0" := by
        unfold recordCell
        rw [if_neg (by decide)]
      have hflag := recordValue_sets_flag _ "0" hS
        (by decide) (by decide)
      rw [← h0] at hflag
      have h2 := foldl_recordCell_leadingZeros r _ hflag
      exact fieldType_of_leadingZeros _
        (by simpa [processValues, List.foldl_append] using h2)
  · intro f
    unfold recordValue typeDetect
    by_cases hS : (uniqueCheck f "-007").Types.contains StringType = true
    · rw [if_pos hS, uniqueCheck_LeadingZeros]
    · rw [if_neg (by simpa using hS),
        if_pos (by decide : parseIntOk "-007" = true)]
      simp [show hasLeadingZeros "-007" = false from by decide,
        uniqueCheck_LeadingZeros]

theorem zero_sets_leading_flag_witness :
    ((recordValue ⟨"id", [], some [], true, false⟩ "0").LeadingZeros = true) ∧
    ((processValues "id" ["3", "0"]).fieldType = StringType) ∧
    ((recordValue ⟨"id", [], some [], true, false⟩ "-007").LeadingZeros
      = false) :=
  ⟨zero_sets_leading_flag.1 ⟨"id", [], some [], true, false⟩
      (List.not_mem_nil _),
   zero_sets_leading_flag.2.1 "id" ["3", "0"] (by decide),
   zero_sets_leading_flag.2.2 ⟨"id", [], some [], true, false⟩⟩

/-! ### Partitioning lemmas (C7 support) -/

theorem chunks_flatten {α : Type} (n : Nat) :
    ∀ (k : Nat) (cols : List α),
      ((List.range k).map (fun i => (cols.drop (i * n)).take n)).flatten
        = cols.take (k * n) := by
  intro k
  induction k with
  | zero => intro cols; simp
  | succ k ih =>
    intro cols
    rw [List.range_succ, List.map_append, List.flatten_append]
    simp only [List.map_cons, List.map_nil, List.flatten_cons,
      List.flatten_nil, List.append_nil]
    rw [ih, Nat.succ_mul, List.take_add]

/-- C7: splitColumns returns contiguous chunks whose concatenation is the
original column list; one chunk when N ≤ s; otherwise ⌈N/s⌉ chunks, all of
size s except a final remainder chunk of size N mod s (s when s divides
N). -/
theorem partition_preservation {α : Type} (cols : List α) (s : Nat)
    (_hcols : cols ≠ []) (hs : 1 ≤ s) :
    (splitColumns cols s).flatten = cols ∧
    (cols.length ≤ s → splitColumns cols s = [cols]) ∧
    (s < cols.length →
      (splitColumns cols s).length = (cols.length + s - 1) / s ∧
      ∃ init lastChunk, splitColumns cols s = init ++ [lastChunk] ∧
        (∀ c ∈ init, c.length = s) ∧
        lastChunk.length =
          if cols.length % s = 0 then s else cols.length % s) := by
  by_cases hle : cols.length ≤ s
  · have hone : splitColumns cols s = [cols] := by
      rw [splitColumns, if_pos hle]
    exact ⟨by simp [hone], fun _ => hone, fun hlt => absurd hlt (by omega)⟩
  · have hlt : s < cols.length := by omega
    have hNr : s * (cols.length / s) + cols.length % s = cols.length :=
      Nat.div_add_mod cols.length s
    have hNr' : (cols.length / s) * s + cols.length % s = cols.length := by
      rw [Nat.mul_comm]; exact hNr
    have hrs : cols.length % s < s := Nat.mod_lt _ (by omega)
    have hp1 : 1 ≤ cols.length / s :=
      (Nat.one_le_div_iff (by omega)).mpr (by omega)
    have hsplitN : splitN cols.length s = (cols.length / s, cols.length % s) := by
      rw [splitN, if_neg (by omega)]
    have hsplit : splitColumns cols s =
        if cols.length % s > 0 then
          ((List.range (cols.length / s)).map
            (fun i => (cols.drop (i * s)).take s)) ++
            [cols.drop (cols.length / s * s)]
        else
          (List.range (cols.length / s)).map
            (fun i => (cols.drop (i * s)).take s) := by
      rw [splitColumns, if_neg (by omega)]
      simp only [hsplitN]
    have hchunk : ∀ i, i < cols.length / s →
        ((cols.drop (i * s)).take s).length = s := by
      intro i hi
      have h1 : (i + 1) * s ≤ (cols.length / s) * s :=
        Nat.mul_le_mul_right s hi
      have h3 : (i + 1) * s ≤ cols.length := le_trans h1 (by omega)
      rw [Nat.succ_mul] at h3
      simp only [List.length_take, List.length_drop]
      omega
    refine ⟨?_, fun hc => absurd hc (by omega), fun _ => ⟨?_, ?_⟩⟩
    · rw [hsplit]
      by_cases hr : cols.length % s > 0
      · rw [if_pos hr, List.flatten_append, chunks_flatten]
        simp only [List.flatten_cons, List.flatten_nil, List.append_nil]
        exact List.take_append_drop _ _
      · rw [if_neg hr, chunks_flatten]
        have hps : cols.length / s * s = cols.length := by omega
        rw [hps, List.take_length]
    · rw [hsplit]
      by_cases hr : cols.length % s > 0
      · rw [if_pos hr]
        rw [show cols.length + s - 1
            = s * (cols.length / s + 1) + (cols.length % s - 1) from by
          rw [Nat.mul_add, Nat.mul_one]; omega]
        rw [Nat.mul_add_div (by omega : 0 < s),
          Nat.div_eq_of_lt (by omega : cols.length % s - 1 < s)]
        simp
      · rw [if_neg hr]
        rw [show cols.length + s - 1
            = s * (cols.length / s) + (s - 1) from by omega]
        rw [Nat.mul_add_div (by omega : 0 < s),
          Nat.div_eq_of_lt (by omega : s - 1 < s)]
        simp
    · rw [hsplit]
      by_cases hr : cols.length % s > 0
      · rw [if_pos hr]
        refine ⟨_, _, rfl, ?_, ?_⟩
        · intro c hc
          obtain ⟨i, hi, rfl⟩ := List.mem_map.mp hc
          exact hchunk i (List.mem_range.mp hi)
        · rw [if_neg (by omega)]
          simp only [List.length_drop]
          omega
      · rw [if_neg hr]
        obtain ⟨q, hq⟩ : ∃ q, cols.length / s = q + 1 :=
          ⟨cols.length / s - 1, by omega⟩
        rw [hq, List.range_succ, List.map_append, List.map_cons, List.map_nil]
        refine ⟨_, _, rfl, ?_, ?_⟩
        · intro c hc
          obtain ⟨i, hi, rfl⟩ := List.mem_map.mp hc
          have hiq : i < q := List.mem_range.mp hi
          exact hchunk i (by omega)
        · rw [if_pos (by omega)]
          exact hchunk q (by omega)

theorem partition_preservation_witness :
    (splitColumns [0, 1, 2, 3, 4] 2).flatten = [0, 1, 2, 3, 4] :=
  (partition_preservation [0, 1, 2, 3, 4] 2 (by decide) (by decide)).1

/-! ### CSV scanner step lemmas (C2/C3 support) -/

theorem unquotedScan_cons (sep c : Char) (rest : List Char) (i : Nat) :
    unquotedScan sep (c :: rest) i =
      if c = sep then .sepAt i
      else if c = '"' then .quoteErr
      else unquotedScan sep rest (i + 1) := rfl

theorem unquotedScan_sep (f : List Char) :
    ∀ (rest : List Char) (i : Nat), ',' ∉ f → '"' ∉ f →
      unquotedScan ',' (f ++ ',' :: rest) i = .sepAt (i + f.length) := by
  induction f with
  | nil =>
    intro rest i _ _
    rw [List.nil_append, unquotedScan_cons, if_pos rfl]
    simp
  | cons c f ih =>
    intro rest i hsep hq
    have hc1 : c ≠ ',' := fun h => hsep (h ▸ List.mem_cons_self c f)
    have hc2 : c ≠ '"' := fun h => hq (h ▸ List.mem_cons_self c f)
    rw [List.cons_append, unquotedScan_cons, if_neg hc1, if_neg hc2,
      ih rest (i + 1) (fun h => hsep (List.mem_cons_of_mem _ h))
        (fun h => hq (List.mem_cons_of_mem _ h))]
    congr 1
    simp only [List.length_cons]
    omega

theorem headD_sep_ne_quote (f rest : List Char) (hq : '"' ∉ f) :
    (f ++ ',' :: rest).headD (Char.ofNat 0) ≠ '"' := by
  cases f with
  | nil =>
    rw [List.nil_append, List.headD_cons]
    decide
  | cons c f =>
    have : c ≠ '"' := fun h => hq (h ▸ List.mem_cons_self c f)
    simpa using this

theorem drop_after_sep (f rest : List Char) :
    (f ++ ',' :: rest).drop (f.length + 1) = rest := by
  rw [show f ++ ',' :: rest = (f ++ [',']) ++ rest from by simp]
  exact List.drop_left' (by simp)

theorem head_or_sep_ne_quote (f : List Char) (hq : '"' ∉ f) :
    (f.head?.or (some ',')).getD (Char.ofNat 0) ≠ '"' := by
  cases f with
  | nil => decide
  | cons c f =>
    have : c ≠ '"' := fun h => hq (h ▸ List.mem_cons_self c f)
    simpa using this

theorem scan_simple_field (coe : Bool) (ln col : Nat)
    (line tok : List Char) (lines : List (List Char)) (f rest : List Char)
    (hsep : ',' ∉ f) (hq : '"' ∉ f) :
    CSVReader.Scan ⟨coe, ',', false, ln, col, false, none, line, tok,
        f ++ ',' :: rest, false, lines⟩
      = (⟨coe, ',', false, ln, col + 1, false, none, line, f, rest,
          rest.isEmpty, lines⟩, true) := by
  cases rest with
  | nil =>
    simp [CSVReader.Scan, scanField, headD_sep_ne_quote f [] hq,
      head_or_sep_ne_quote f hq, unquotedScan_sep f [] 0 hsep hq,
      drop_after_sep f [], List.take_left]
  | cons r rs =>
    simp [CSVReader.Scan, scanField, headD_sep_ne_quote f (r :: rs) hq,
      head_or_sep_ne_quote f hq, unquotedScan_sep f (r :: rs) 0 hsep hq,
      drop_after_sep f (r :: rs), List.take_left]

theorem scan_trail_step (coe : Bool) (sep : Char) (ln col : Nat)
    (line tok : List Char) (lines : List (List Char)) :
    CSVReader.Scan ⟨coe, sep, false, ln, col, false, none, line, tok,
        [], true, lines⟩
      = (⟨coe, sep, true, ln, col + 1, false, none, line, [], [],
          false, lines⟩, true) := rfl

theorem scan_line_end (coe : Bool) (sep : Char) (ln col : Nat)
    (line tok dat : List Char) :
    CSVReader.Scan ⟨coe, sep, true, ln, col, false, none, line, tok,
        dat, false, []⟩
      = (⟨coe, sep, true, ln, col, true, none, [], [], [], false, []⟩,
          false) := rfl

theorem scanLines_cons (l : List Char) (ls : List (List Char)) :
    scanLines (l :: ls) = if l = [] then scanLines ls else some (l, ls) := rfl

theorem scan_first_line (coe : Bool) (ln col : Nat)
    (line0 tok dat : List Char) (lines' : List (List Char))
    (f rest : List Char) (hsep : ',' ∉ f) (hq : '"' ∉ f) :
    CSVReader.Scan ⟨coe, ',', true, ln, col, false, none, line0, tok,
        dat, false, (f ++ ',' :: rest) :: lines'⟩
      = (⟨coe, ',', false, ln + 1, 1, false, none, f ++ ',' :: rest, f,
          rest, rest.isEmpty, lines'⟩, true) := by
  cases rest with
  | nil =>
    simp [CSVReader.Scan, scanField, scanLines,
      headD_sep_ne_quote f [] hq, head_or_sep_ne_quote f hq,
      unquotedScan_sep f [] 0 hsep hq, drop_after_sep f [], List.take_left]
  | cons r rs =>
    simp [CSVReader.Scan, scanField, scanLines,
      headD_sep_ne_quote f (r :: rs) hq, head_or_sep_ne_quote f hq,
      unquotedScan_sep f (r :: rs) 0 hsep hq, drop_after_sep f (r :: rs),
      List.take_left]

theorem scanN_simple_fields :
    ∀ (fs : List (List Char)) (coe : Bool) (ln col : Nat)
      (line tok : List Char),
      fs ≠ [] → (∀ f ∈ fs, ',' ∉ f ∧ '"' ∉ f) →
      scanN ⟨coe, ',', false, ln, col, false, none, line, tok,
          joinComma fs ++ [','], false, []⟩ (fs.length + 2)
        = fs.map (fun f => (f, false, none)) ++ [([], true, none)] := by
  intro fs
  induction fs with
  | nil => intro _ _ _ _ _ h _; exact absurd rfl h
  | cons f fs ih =>
    intro coe ln col line tok _ hok
    obtain ⟨⟨hs, hq⟩, hok'⟩ :
        (',' ∉ f ∧ '"' ∉ f) ∧ ∀ g ∈ fs, ',' ∉ g ∧ '"' ∉ g :=
      ⟨hok f (List.mem_cons_self f fs),
        fun g hg => hok g (List.mem_cons_of_mem _ hg)⟩
    cases fs with
    | nil =>
      rw [show joinComma [f] ++ [','] = f ++ ',' :: [] from by
        simp [joinComma]]
      show scanN _ 3 = _
      rw [scanN, scan_simple_field coe ln col line tok [] f [] hs hq]
      simp only [List.isEmpty_nil, if_pos rfl]
      rw [scanN, scan_trail_step]
      simp only [if_pos rfl]
      rw [scanN, scan_line_end]
      simp
    | cons g gs =>
      rw [show joinComma (f :: g :: gs) ++ [',']
          = f ++ ',' :: (joinComma (g :: gs) ++ [',']) from by
        simp [joinComma]]
      have hlen : (f :: g :: gs).length + 2 = ((g :: gs).length + 2) + 1 := by
        simp
      rw [hlen, scanN,
        scan_simple_field coe ln col line tok [] f
          (joinComma (g :: gs) ++ [',']) hs hq]
      have hre : (joinComma (g :: gs) ++ [',']).isEmpty = false := by
        simp
      rw [hre]
      simp only [if_pos rfl]
      rw [ih coe ln (col + 1) line f (by simp) hok']
      simp

/-- C2 (counterexample): on the line `a,b,` the scan sequence is not the
two fields `a`, `b` with end-of-record at `b` — scanning a trailing
separator does yield a further field. -/
theorem trailing_comma_counterexample :
    ¬ (scanN (NewCSVReader ["a,b,".toList] ',') 10
        = [("a".toList, false, none), ("b".toList, true, none)]) := by
  decide

/-- C2 (amended): for a line of separator- and quote-free fields joined by
the separator and ending with a trailing separator, the tokenizer yields
every field with endOfRecord false — including the field preceding the
final separator — and then one additional trailing empty field with
endOfRecord true as the last field of the record. -/
theorem trailing_comma_empty_field (fs : List (List Char))
    (hne : fs ≠ []) (hok : ∀ f ∈ fs, ',' ∉ f ∧ '"' ∉ f) :
    scanN (NewCSVReader [joinComma fs ++ [',']] ',') (fs.length + 2)
      = fs.map (fun f => (f, false, none)) ++ [([], true, none)] := by
  cases fs with
  | nil => exact absurd rfl hne
  | cons f fs =>
    obtain ⟨⟨hs, hq⟩, hok'⟩ :
        (',' ∉ f ∧ '"' ∉ f) ∧ ∀ g ∈ fs, ',' ∉ g ∧ '"' ∉ g :=
      ⟨hok f (List.mem_cons_self f fs),
        fun g hg => hok g (List.mem_cons_of_mem _ hg)⟩
    cases fs with
    | nil =>
      rw [show joinComma [f] ++ [','] = f ++ ',' :: [] from by
        simp [joinComma]]
      show scanN _ 3 = _
      rw [scanN, NewCSVReader, scan_first_line true 0 0 [] [] [] [] f [] hs hq]
      simp only [List.isEmpty_nil, if_pos rfl]
      rw [scanN, scan_trail_step]
      simp only [if_pos rfl]
      rw [scanN, scan_line_end]
      simp
    | cons g gs =>
      rw [show joinComma (f :: g :: gs) ++ [',']
          = f ++ ',' :: (joinComma (g :: gs) ++ [',']) from by
        simp [joinComma]]
      have hlen : (f :: g :: gs).length + 2 = ((g :: gs).length + 2) + 1 := by
        simp
      rw [hlen, scanN, NewCSVReader,
        scan_first_line true 0 0 [] [] [] [] f
          (joinComma (g :: gs) ++ [',']) hs hq]
      have hre : (joinComma (g :: gs) ++ [',']).isEmpty = false := by
        simp
      rw [hre]
      simp only [if_pos rfl]
      rw [scanN_simple_fields (g :: gs) true 1 1 (f ++ ',' :: (joinComma (g :: gs) ++ [','])) f (by simp) hok']
      simp

theorem trailing_comma_empty_field_witness :
    scanN (NewCSVReader [joinComma ["a".toList, "b".toList] ++ [',']] ',') 4
      = [("a".toList, false, none), ("b".toList, false, none),
         ([], true, none)] :=
  trailing_comma_empty_field ["a".toList, "b".toList] (by decide) (by decide)

/-- C3 (counterexample): scanning the header line `"name", "gender",state`
does not yield the three clean tokens with no parse error — the second
field begins with a space, so the unquoted-field scanner hits the quote. -/
theorem s3_header_counterexample :
    ¬ ((scanN (NewCSVReader ["\"name\", \"gender\",state".toList] ',') 10).map
          (fun r => r.1)
        = ["name".toList, "gender".toList, "state".toList] ∧
      ∀ r ∈ scanN (NewCSVReader ["\"name\", \"gender\",state".toList] ',') 10,
        r.2.2 = none) := by
  decide

/-! ### Database model lemmas (C1/C8 support) -/

theorem lookupTable_ext {db db' : DB} (h : db.tables = db'.tables) (k : String × String) :
    lookupTable db k = lookupTable db' k := by
  unfold lookupTable
  rw [h]

theorem find?_filter_ne {k k' : String × String}
    (l : List ((String × String) × Table)) (hne : k' ≠ k) :
    (l.filter (fun e => e.1 != k)).find? (fun e => e.1 == k')
      = l.find? (fun e => e.1 == k') := by
  induction l with
  | nil => rfl
  | cons e l ih =>
    by_cases hek : e.1 = k
    · have h1 : (e.1 != k) = false := by simp [hek]
      have h2 : (e.1 == k') = false := by simp [hek, Ne.symm hne]
      simp [List.filter_cons, List.find?_cons, h1, h2, ih]
    · have h1 : (e.1 != k) = true := by simp [hek]
      by_cases hpk : (e.1 == k') = true
      · simp [List.filter_cons, List.find?_cons, h1, hpk]
      · have h2 : (e.1 == k') = false := by simpa using hpk
        simp [List.filter_cons, List.find?_cons, h1, h2, ih]

theorem lookup_setTable_self (db : DB) (k : String × String) (t : Table) :
    lookupTable (setTable db k t) k = some t := by
  unfold lookupTable setTable
  rw [List.find?_append]
  have h1 : (db.tables.filter (fun e => e.1 != k)).find? (fun e => e.1 == k)
      = none := by
    rw [List.find?_eq_none]
    intro e he
    have := (List.mem_filter.mp he).2
    simpa using this
  rw [h1]
  simp

theorem lookup_setTable_other (db : DB) (k k' : String × String) (t : Table)
    (hne : k' ≠ k) :
    lookupTable (setTable db k t) k' = lookupTable db k' := by
  unfold lookupTable setTable
  rw [List.find?_append]
  rw [find?_filter_ne db.tables hne]
  cases hf : db.tables.find? (fun e => e.1 == k') with
  | some e => simp
  | none =>
    simp only [Option.none_or]
    have hkk : ((k, t).1 == k') = false := by
      simp [Ne.symm hne]
    simp [List.find?_cons, hkk]

theorem lookup_dropTable_other (db : DB) (s t : String) (k : String × String)
    (hne : k ≠ (s, t)) :
    lookupTable (execDropTable db s t) k = lookupTable db k := by
  unfold lookupTable execDropTable
  rw [find?_filter_ne db.tables hne]

theorem lookup_dropTable_self (db : DB) (s t : String) :
    lookupTable (execDropTable db s t) (s, t) = none := by
  unfold lookupTable execDropTable
  rw [List.find?_eq_none.mpr]
  · rfl
  · intro e he
    have := (List.mem_filter.mp he).2
    simpa using this

theorem appendRows_views (db : DB) (k : String × String)
    (rs : List (List (Option String))) : (appendRows db k rs).views = db.views := by
  unfold appendRows
  cases lookupTable db k <;> rfl

theorem commitParts_views (schema table : String) (rows : List (List String)) :
    ∀ (colsl : List (List String)) (db : DB) (i low : Nat),
      (commitParts schema table rows db i low colsl).views = db.views := by
  intro colsl
  induction colsl with
  | nil => intro db i low; rfl
  | cons c cs ih =>
    intro db i low
    rw [commitParts, ih]
    simp [appendRows_views]

theorem copyData_views (db : DB) (schema table : String)
    (cols : List (List String)) (input : CopyIn) :
    (copyData db schema table cols input).1.views = db.views := by
  unfold copyData
  split
  · rfl
  · split
    · rfl
    · by_cases hk : cols.length = 1
      · simp [hk, commitSingleCopy, appendRows_views]
      · simp [hk, commitParts_views]

theorem execRenameSingle_views (db : DB) (s a b : String) :
    (execRenameSingle db s a b).views = db.views := by
  simp only [execRenameSingle]
  split <;> rfl

theorem foldl_views {α : Type} (g : DB → α → DB)
    (hg : ∀ d x, (g d x).views = d.views) :
    ∀ (l : List α) (db : DB), (l.foldl g db).views = db.views := by
  intro l
  induction l with
  | nil => intro db; rfl
  | cons x l ih => intro db; rw [List.foldl_cons, ih, hg]

theorem renameTable_views (db : DB) (s a b : String) (k : Nat) :
    (renameTable db s a b k).views = db.views := by
  unfold renameTable
  split_ifs
  · exact execRenameSingle_views db s a b
  · exact foldl_views
      (fun d i => execRenameSingle d s (partName a i) (partName b i))
      (fun d i => execRenameSingle_views d s _ _) (List.range k) db

theorem analyzeTable_views (db : DB) (s t : String)
    (cols : List (List String)) : (analyzeTable db s t cols).views = db.views := by
  unfold analyzeTable
  split_ifs
  · rfl
  · exact foldl_views
      (fun d i => { d with log := d.log ++ [DbOp.analyzeOp s (partName t i)] })
      (fun d i => rfl) (List.range cols.length) db

theorem goodRows_of_err {rows : List (Option (List String))}
    (h : rows.any Option.isNone = true) : goodRows rows = none := by
  induction rows with
  | nil => simp at h
  | cons r rs ih =>
    cases r with
    | none => rfl
    | some v =>
      simp only [List.any_cons, Option.isSome_some] at h
      rw [goodRows]
      have : rs.any Option.isNone = true := by simpa using h
      rw [ih this]
      rfl

/-- C3 (amended): scanning the header line `"name", "gender",state` yields
the token `name`, then an UnquotedField error on the second field (it
begins with a space, not a quote); the remainder of the line is emitted as
the error token and ends the record. -/
theorem s3_header_error_recovery :
    scanN (NewCSVReader ["\"name\", \"gender\",state".toList] ',') 10
      = [("name".toList, false, none),
         (" \"gender\",state".toList, true, some CSVErr.unquotedField)] := by
  decide

/-! ### createTable and copyData behaviour (C1/C8 support) -/

theorem createSingleTable_ok (db : DB) (s t : String) (cols : List String)
    (hlen : cols.length ≤ pgMaxTableColumns) :
    ∃ db2, createSingleTable db s t cols = Except.ok db2 ∧
      db2.views = db.views ∧ db2.schemas = db.schemas ∧
      db2.log = db.log ++ [DbOp.createTableOp s t cols.length] ∧
      (∀ k, k ≠ (s, t) → lookupTable db2 k = lookupTable db k) ∧
      (∀ k tb, lookupTable db k = some tb → lookupTable db2 k = some tb) ∧
      (lookupTable db (s, t) = none →
        lookupTable db2 (s, t) = some ⟨cols, []⟩) := by
  unfold createSingleTable
  rw [if_neg (by omega)]
  cases h : lookupTable db (s, t) with
  | some tb =>
    refine ⟨_, rfl, rfl, rfl, rfl, ?_, ?_, ?_⟩
    · intro k _
      exact lookupTable_ext rfl k
    · intro k tb' hk
      rw [lookupTable_ext (rfl :
        ({ db with log := db.log ++ [DbOp.createTableOp s t cols.length] } :
          DB).tables = db.tables) k]
      exact hk
    · intro hnone
      simp at hnone
  | none =>
    refine ⟨_, rfl, rfl, rfl, rfl, ?_, ?_, ?_⟩
    · intro k hk
      rw [lookup_setTable_other _ (s, t) k _ hk]
      exact lookupTable_ext rfl k
    · intro k tb hk
      by_cases hke : k = (s, t)
      · subst hke
        rw [h] at hk
        simp at hk
      · rw [lookup_setTable_other _ (s, t) k _ hke,
          lookupTable_ext (rfl :
            ({ db with log := db.log ++ [DbOp.createTableOp s t cols.length] } :
              DB).tables = db.tables) k]
        exact hk
    · intro _
      exact lookup_setTable_self _ (s, t) ⟨cols, []⟩

theorem createParts_ok (schema table : String) :
    ∀ (partsCols : List (List String)) (db : DB) (i0 : Nat),
      (∀ c ∈ partsCols, (rowIdColumn :: c).length ≤ pgMaxTableColumns) →
      ∃ db2, createParts schema table db i0 partsCols = Except.ok db2 ∧
        db2.views = db.views ∧ db2.schemas = db.schemas ∧
        (∃ ops, db2.log = db.log ++ ops ∧
          ∀ op ∈ ops, ∃ a b n, op = DbOp.createTableOp a b n) ∧
        (∀ k, (∀ j, j < partsCols.length →
            k ≠ (schema, partName table (i0 + j))) →
          lookupTable db2 k = lookupTable db k) ∧
        (∀ k tb, lookupTable db k = some tb → lookupTable db2 k = some tb) ∧
        (∀ j, j < partsCols.length →
          lookupTable db (schema, partName table (i0 + j)) = none →
          ∃ tb, lookupTable db2 (schema, partName table (i0 + j)) = some tb ∧
            tb.rows = []) := by
  intro partsCols
  induction partsCols with
  | nil =>
    intro db i0 _
    exact ⟨db, rfl, rfl, rfl, ⟨[], by simp, by simp⟩, fun k _ => rfl,
      fun k tb h => h, fun j hj => absurd hj (by simp)⟩
  | cons c cs ih =>
    intro db i0 hall
    obtain ⟨db1, heq1, hv1, hs1, hl1, ho1, hp1, hf1⟩ :=
      createSingleTable_ok db schema (partName table i0) (rowIdColumn :: c)
        (hall c (List.mem_cons_self c cs))
    obtain ⟨db2, heq2, hv2, hs2, ⟨ops2, hl2, hk2⟩, ho2, hp2, hf2⟩ :=
      ih db1 (i0 + 1) (fun c' hc' => hall c' (List.mem_cons_of_mem _ hc'))
    refine ⟨db2, ?_, ?_, ?_, ?_, ?_, ?_, ?_⟩
    · simp only [createParts]
      rw [heq1]
      exact heq2
    · rw [hv2, hv1]
    · rw [hs2, hs1]
    · refine ⟨DbOp.createTableOp schema (partName table i0)
        (rowIdColumn :: c).length :: ops2, ?_, ?_⟩
      · rw [hl2, hl1]
        simp
      · intro op hop
        rcases List.mem_cons.mp hop with h | h
        · exact ⟨_, _, _, h⟩
        · exact hk2 op h
    · intro k hk
      rw [ho2 k (fun j hj => by
        have := hk (j + 1) (by simpa using Nat.succ_lt_succ hj)
        rwa [show i0 + (j + 1) = i0 + 1 + j from by omega] at this)]
      refine ho1 k ?_
      have := hk 0 (by simp)
      simpa using this
    · intro k tb h
      exact hp2 k tb (hp1 k tb h)
    · intro j hj hnone
      cases j with
      | zero =>
        have h0 : lookupTable db1 (schema, partName table i0)
            = some ⟨rowIdColumn :: c, []⟩ := hf1 (by simpa using hnone)
        exact ⟨_, by simpa using hp2 _ _ h0, rfl⟩
      | succ j' =>
        have hj' : j' < cs.length := by simpa using hj
        by_cases hke :
            (schema, partName table (i0 + (j' + 1)))
              = ((schema, partName table i0) : String × String)
        · have h0 : lookupTable db1 (schema, partName table i0)
              = some ⟨rowIdColumn :: c, []⟩ := hf1 (by rw [← hke]; exact hnone)
          exact ⟨_, by rw [hke]; exact hp2 _ _ h0, rfl⟩
        · have hstep : lookupTable db1 (schema, partName table (i0 + (j' + 1)))
              = none := by
            rw [ho1 _ hke]
            exact hnone
          obtain ⟨tb, htb, hr⟩ := hf2 j' hj'
            (by rwa [show i0 + 1 + j' = i0 + (j' + 1) from by omega])
          exact ⟨tb,
            by rwa [show i0 + 1 + j' = i0 + (j' + 1) from by omega] at htb, hr⟩

theorem splitColumns_eq_of_lt {α : Type} (cols : List α) (n : Nat)
    (h : n < cols.length) :
    splitColumns cols n =
      if cols.length % n > 0 then
        ((List.range (cols.length / n)).map
          (fun i => (cols.drop (i * n)).take n)) ++
          [cols.drop (cols.length / n * n)]
      else
        (List.range (cols.length / n)).map
          (fun i => (cols.drop (i * n)).take n) := by
  rw [splitColumns, if_neg (by omega)]
  simp only [show splitN cols.length n = (cols.length / n, cols.length % n)
    from by rw [splitN, if_neg (by omega)]]

theorem splitColumns_chunk_le {α : Type} (cols : List α) (n : Nat)
    (hn : 1 ≤ n) : ∀ c ∈ splitColumns cols n, c.length ≤ n := by
  intro c hc
  by_cases h : n ≥ cols.length
  · rw [splitColumns, if_pos h] at hc
    rw [List.mem_singleton.mp hc]
    omega
  · rw [splitColumns_eq_of_lt cols n (by omega)] at hc
    have hmod := Nat.div_add_mod cols.length n
    split_ifs at hc with hr
    · rcases List.mem_append.mp hc with hm | hm
      · obtain ⟨i, _, rfl⟩ := List.mem_map.mp hm
        simp [List.length_take]
      · rw [List.mem_singleton.mp hm]
        simp only [List.length_drop]
        have hmod2 : cols.length / n * n + cols.length % n = cols.length := by
          rw [Nat.mul_comm]
          exact Nat.div_add_mod cols.length n
        have hlt : cols.length % n < n := Nat.mod_lt _ (by omega)
        generalize cols.length / n * n = A at hmod2 ⊢
        generalize cols.length % n = B at hmod2 hlt
        omega
    · obtain ⟨i, _, rfl⟩ := List.mem_map.mp hc
      simp [List.length_take]

theorem splitColumns_ne_nil {α : Type} (cols : List α) (n : Nat)
    (hn : 1 ≤ n) : splitColumns cols n ≠ [] := by
  by_cases h : n ≥ cols.length
  · rw [splitColumns, if_pos h]
    simp
  · rw [splitColumns_eq_of_lt cols n (by omega)]
    have hp1 : 1 ≤ cols.length / n :=
      (Nat.one_le_div_iff (by omega)).mpr (by omega)
    have hlen : ((List.range (cols.length / n)).map
        (fun i => (cols.drop (i * n)).take n)).length = cols.length / n := by
      simp
    split_ifs
    · simp
    · intro he
      rw [he] at hlen
      simp at hlen
      omega

theorem createTableSplits_ok924 (db : DB) (schema table : String)
    (columns : List String) :
    ∃ db2,
      createTableSplits db schema table (splitColumns columns 924)
        = Except.ok db2 ∧
      db2.views = db.views ∧ db2.schemas = db.schemas ∧
      (∃ ops, db2.log = db.log ++ ops ∧
        ∀ op ∈ ops, ∃ a b n, op = DbOp.createTableOp a b n) ∧
      (∀ k, (∀ nm ∈ tempNames table (splitColumns columns 924).length,
          k ≠ (schema, nm)) →
        lookupTable db2 k = lookupTable db k) ∧
      (∀ k tb, lookupTable db k = some tb → lookupTable db2 k = some tb) ∧
      (∀ nm ∈ tempNames table (splitColumns columns 924).length,
        lookupTable db (schema, nm) = none →
        ∃ tb, lookupTable db2 (schema, nm) = some tb ∧ tb.rows = []) := by
  have hchunks := splitColumns_chunk_le columns 924 (by omega)
  unfold createTableSplits
  by_cases h1 : (splitColumns columns 924).length = 1
  · rw [if_pos h1]
    obtain ⟨c, hc⟩ := List.length_eq_one.mp h1
    have hcle : c.length ≤ 924 :=
      hchunks c (by rw [hc]; exact List.mem_singleton.mpr rfl)
    obtain ⟨db2, heq, hv, hs, hl, ho, hp, hf⟩ :=
      createSingleTable_ok db schema table ((splitColumns columns 924).headD [])
        (by rw [hc]; simp only [List.headD_cons]; unfold pgMaxTableColumns; omega)
    refine ⟨db2, heq, hv, hs,
      ⟨[DbOp.createTableOp schema table
          ((splitColumns columns 924).headD []).length], hl,
        by intro op hop; rw [List.mem_singleton.mp hop]; exact ⟨_, _, _, rfl⟩⟩,
      ?_, hp, ?_⟩
    · intro k hk
      refine ho k ?_
      have := hk table (by simp [tempNames, h1])
      exact this
    · intro nm hnm hnone
      have : nm = table := by
        simpa [tempNames, h1] using hnm
      subst this
      exact ⟨⟨(splitColumns columns 924).headD [], []⟩, hf hnone, rfl⟩
  · rw [if_neg h1]
    obtain ⟨db2, heq, hv, hs, hlog, ho, hp, hf⟩ :=
      createParts_ok schema table (splitColumns columns 924) db 0
        (fun c hc => by
          have := hchunks c hc
          simp only [List.length_cons]
          unfold pgMaxTableColumns
          omega)
    refine ⟨db2, heq, hv, hs, hlog, ?_, hp, ?_⟩
    · intro k hk
      refine ho k ?_
      intro j hj
      rw [Nat.zero_add]
      refine hk (partName table j) ?_
      simp only [tempNames, if_neg h1]
      exact List.mem_map.mpr ⟨j, List.mem_range.mpr hj, by simp⟩
    · intro nm hnm hnone
      simp only [tempNames, if_neg h1] at hnm
      obtain ⟨j, hj, rfl⟩ := List.mem_map.mp hnm
      have hj' : j < (splitColumns columns 924).length := List.mem_range.mp hj
      obtain ⟨tb, htb, hr⟩ := hf j hj' (by simpa using hnone)
      exact ⟨tb, by simpa using htb, hr⟩

theorem createTable_ok (db : DB) (schema table : String) (ts : Schema) :
    ∃ db2,
      createTable db schema table ts
        = (db2, Except.ok (splitColumns
            (ts.Fields.map (fun f => cleanFieldName f.Name)) 924)) ∧
      db2.views = db.views ∧ db2.schemas = db.schemas ∧
      (∃ ops, db2.log = db.log ++ ops ∧
        ∀ op ∈ ops, ∃ a b n, op = DbOp.createTableOp a b n) ∧
      (∀ k, (∀ nm ∈ tempNames table (splitColumns
            (ts.Fields.map (fun f => cleanFieldName f.Name)) 924).length,
          k ≠ (schema, nm)) →
        lookupTable db2 k = lookupTable db k) ∧
      (∀ k tb, lookupTable db k = some tb → lookupTable db2 k = some tb) ∧
      (∀ nm ∈ tempNames table (splitColumns
            (ts.Fields.map (fun f => cleanFieldName f.Name)) 924).length,
        lookupTable db (schema, nm) = none →
        ∃ tb, lookupTable db2 (schema, nm) = some tb ∧ tb.rows = []) := by
  obtain ⟨db2, heq, rest⟩ :=
    createTableSplits_ok924 db schema table
      (ts.Fields.map (fun f => cleanFieldName f.Name))
  refine ⟨db2, ?_, rest⟩
  unfold createTable partSizes
  simp only [tryPartSizes]
  rw [heq]

theorem copyData_fail (db : DB) (schema table : String)
    (splits : List (List String)) (input : CopyIn)
    (hfail : hasInputError input = true) :
    ∃ db' e, copyData db schema table splits input = (db', Except.error e) ∧
      db'.tables = db.tables ∧ db'.views = db.views ∧
      db'.schemas = db.schemas ∧
      ∃ ops, db'.log = db.log ++ ops ∧
        (∀ op ∈ ops,
          (∃ i, op = DbOp.copyBeginOp i) ∨
          (∃ i, op = DbOp.copyRollbackOp i)) ∧
        (∀ i, DbOp.copyBeginOp i ∈ ops → DbOp.copyRollbackOp i ∈ ops) := by
  unfold copyData
  cases hh : input.header with
  | none =>
    exact ⟨db, DbErr.copyHeaderErr, rfl, rfl, rfl, rfl,
      ⟨[], by simp, by simp, by simp⟩⟩
  | some hdr =>
    have hrows : input.rows.any Option.isNone = true := by
      unfold hasInputError at hfail
      rw [hh] at hfail
      simpa using hfail
    rw [goodRows_of_err hrows]
    refine ⟨_, DbErr.copyRowErr, rfl, rfl, rfl, rfl,
      ⟨(List.range splits.length).map DbOp.copyBeginOp ++
        (List.range splits.length).map DbOp.copyRollbackOp, by simp, ?_, ?_⟩⟩
    · intro op hop
      rcases List.mem_append.mp hop with h | h
      · obtain ⟨i, _, rfl⟩ := List.mem_map.mp h
        exact Or.inl ⟨i, rfl⟩
      · obtain ⟨i, _, rfl⟩ := List.mem_map.mp h
        exact Or.inr ⟨i, rfl⟩
    · intro i hi
      rcases List.mem_append.mp hi with h | h
      · obtain ⟨j, hj, hjeq⟩ := List.mem_map.mp h
        have : j = i := by simpa using hjeq
        subst this
        exact List.mem_append_right _ (List.mem_map.mpr ⟨j, hj, rfl⟩)
      · obtain ⟨j, _, hjeq⟩ := List.mem_map.mp h
        simp at hjeq

/-! ### NewSchema panic behaviour (C9) -/

theorem foldl_newSchemaStep_none (entries : List (String × PField)) :
    entries.foldl newSchemaStep none = none := by
  induction entries with
  | nil => rfl
  | cons e es ih => exact ih

theorem foldl_newSchemaStep_bad :
    ∀ (entries : List (String × PField)) (fields : List (Option Field))
      (L : Nat), fields.length = L →
      (∃ nf ∈ entries, L ≤ nf.2.Index) →
      entries.foldl newSchemaStep (some fields) = none := by
  intro entries
  induction entries with
  | nil =>
    intro fields L _ hbad
    obtain ⟨nf, hnf, -⟩ := hbad
    cases hnf
  | cons e es ih =>
    intro fields L hlen hbad
    rw [List.foldl_cons]
    by_cases hi : e.2.Index < fields.length
    · rw [show newSchemaStep (some fields) e
          = some (fields.set e.2.Index (some (mkSchemaField e.1 e.2))) from by
        simp [newSchemaStep, hi]]
      obtain ⟨nf, hnf, hge⟩ := hbad
      rcases List.mem_cons.mp hnf with rfl | hmem
      · omega
      · exact ih _ L (by simp [hlen]) ⟨nf, hmem, hge⟩
    · rw [show newSchemaStep (some fields) e = none from by
        simp [newSchemaStep, hi]]
      exact foldl_newSchemaStep_none es

theorem lastIdxAux_append (n : String) :
    ∀ (l : List String) (i acc : Nat),
      lastIdxAux n (l ++ [n]) i acc = i + l.length := by
  intro l
  induction l with
  | nil =>
    intro i acc
    simp [lastIdxAux]
  | cons x l ih =>
    intro i acc
    rw [List.cons_append, lastIdxAux, ih]
    simp only [List.length_cons]
    omega

theorem lastIndexOf_getLast (l : List String) (h : l ≠ []) :
    lastIndexOf l (l.getLast h) = l.length - 1 := by
  rcases List.eq_nil_or_concat l with rfl | ⟨L, b, rfl⟩
  · exact absurd rfl h
  · simp only [List.concat_eq_append] at h ⊢
    have hgl : (L ++ [b]).getLast h = b := by simp [List.getLast_append]
    rw [hgl]
    unfold lastIndexOf
    rw [lastIdxAux_append]
    simp

theorem dedup_length_lt_of_not_nodup {l : List String}
    (h : ¬ l.Nodup) : l.dedup.length < l.length := by
  have hsub : l.dedup.Sublist l := l.dedup_sublist
  have hle := hsub.length_le
  rcases Nat.lt_or_ge l.dedup.length l.length with hlt | hge
  · exact hlt
  · have heq : l.dedup.length = l.length := by omega
    have := hsub.eq_of_length heq
    exact absurd (this ▸ l.nodup_dedup) h

/-- C9: a profile holding a field whose Index is at least the number of
fields makes NewSchema write out of range and panic; and the index
assignment of the CSV profiler produces such a profile whenever the header
holds two names equal after lowercasing. -/
theorem duplicate_header_schema_panic :
    (∀ p : Profile, (∃ nf ∈ p.Fields, p.Fields.length ≤ nf.2.Index) →
      NewSchema p = none) ∧
    (∀ (record : List String) (base : PField), record ≠ [] →
      ¬ (record.map goToLower).Nodup →
      NewSchema (indexedProfile record base) = none) := by
  have part1 : ∀ p : Profile,
      (∃ nf ∈ p.Fields, p.Fields.length ≤ nf.2.Index) → NewSchema p = none := by
    intro p hbad
    unfold NewSchema
    exact foldl_newSchemaStep_bad p.Fields _ p.Fields.length (by simp) hbad
  refine ⟨part1, ?_⟩
  intro record base hne hdup
  apply part1
  have hhe : record.map goToLower ≠ [] := by
    intro h
    exact hne (List.map_eq_nil_iff.mp h)
  have hlast := lastIndexOf_getLast (record.map goToLower) hhe
  have hdlt := dedup_length_lt_of_not_nodup hdup
  have hidx : lastIndexOf (record.map goToLower) ((record.map goToLower).getLast hhe) ≥ (record.map goToLower).dedup.length := by
    rw [hlast]
    omega
  refine ⟨((record.map goToLower).getLast hhe, { base with Index := lastIndexOf (record.map goToLower) ((record.map goToLower).getLast hhe) }), ?_, ?_⟩
  · unfold indexedProfile headerIndexes
    refine List.mem_map.mpr ⟨((record.map goToLower).getLast hhe, lastIndexOf (record.map goToLower) ((record.map goToLower).getLast hhe)), ?_, rfl⟩
    exact List.mem_map.mpr ⟨(record.map goToLower).getLast hhe, List.mem_dedup.mpr ((record.map goToLower).getLast_mem hhe), rfl⟩
  · unfold indexedProfile headerIndexes
    simp only [List.length_map]
    exact hidx

theorem duplicate_header_schema_panic_witness :
    NewSchema (indexedProfile ["A", "a", "b"]
      ⟨0, ValueType.StringType, false, false, true, false⟩) = none :=
  duplicate_header_schema_panic.2 ["A", "a", "b"]
    ⟨0, ValueType.StringType, false, false, true, false⟩
    (by decide) (by decide)


/-! ### Replace under a failing bulk copy (C1) -/

/-- C1 (amended): when the bulk copy fails, Replace returns the error with
the target table and its rows unchanged, the views unchanged, and only
schema-creation, temp-table-creation and copy transaction operations
appended to the log (no drop, rename or view step runs), every begun copy
transaction rolled back — but the temp tables committed by the
create-table step remain in the database as empty orphans. -/
theorem replace_copy_failure (db : DB)
    (schemaName tableName tempTableName : String) (ts : Schema)
    (input : CopyIn)
    (hfail : hasInputError input = true)
    (hdist : ∀ nm ∈ tempNames tempTableName
        (splitColumns (ts.Fields.map fun f => cleanFieldName f.Name)
          924).length, tableName ≠ nm)
    (hfresh : ∀ nm ∈ tempNames tempTableName
        (splitColumns (ts.Fields.map fun f => cleanFieldName f.Name)
          924).length, lookupTable db (schemaName, nm) = none) :
    ∃ db' e, Replace db schemaName tableName tempTableName ts input
        = (db', Except.error e) ∧
      lookupTable db' (schemaName, tableName)
        = lookupTable db (schemaName, tableName) ∧
      db'.views = db.views ∧
      (∃ newOps, db'.log = db.log ++ newOps ∧
        (∀ op ∈ newOps,
          (∃ a, op = DbOp.createSchemaOp a) ∨
          (∃ a b n, op = DbOp.createTableOp a b n) ∨
          (∃ i, op = DbOp.copyBeginOp i) ∨
          (∃ i, op = DbOp.copyRollbackOp i)) ∧
        (∀ i, DbOp.copyBeginOp i ∈ newOps →
          DbOp.copyRollbackOp i ∈ newOps)) ∧
      (∀ nm ∈ tempNames tempTableName
          (splitColumns (ts.Fields.map fun f => cleanFieldName f.Name)
            924).length,
        ∃ tb, lookupTable db' (schemaName, nm) = some tb ∧ tb.rows = []) := by
  obtain ⟨db2, heqCT, hv2, hs2, ⟨ops2, hlog2, hops2⟩, ho2, hp2, hf2⟩ :=
    createTable_ok (execCreateSchema db schemaName) schemaName tempTableName ts
  obtain ⟨db3, e, heqCD, ht3, hv3, hs3, ops3, hlog3, hops3, hrb3⟩ :=
    copyData_fail db2 schemaName tempTableName
      (splitColumns (ts.Fields.map fun f => cleanFieldName f.Name) 924)
      input hfail
  refine ⟨db3, e, ?_, ?_, ?_, ?_, ?_⟩
  · simp only [Replace]
    split
    · next db2a ea heq =>
      rw [heqCT] at heq
      simp at heq
    · next db2a splitsa heq =>
      rw [heqCT, Prod.mk.injEq] at heq
      obtain ⟨h1, h2⟩ := heq
      injection h2 with h2
      subst h1
      subst h2
      split
      · next db3a ea heq2 =>
        rw [heqCD, Prod.mk.injEq] at heq2
        obtain ⟨h3, h4⟩ := heq2
        injection h4 with h4
        subst h3
        subst h4
        rfl
      · next db3a na heq2 =>
        rw [heqCD] at heq2
        simp at heq2
  · rw [lookupTable_ext ht3]
    rw [ho2 (schemaName, tableName)
      (fun nm hnm h => hdist nm hnm (congrArg Prod.snd h))]
    exact lookupTable_ext rfl _
  · rw [hv3, hv2]
    rfl
  · refine ⟨DbOp.createSchemaOp schemaName :: (ops2 ++ ops3), ?_, ?_, ?_⟩
    · rw [hlog3, hlog2]
      show (execCreateSchema db schemaName).log ++ ops2 ++ ops3 = _
      simp [execCreateSchema]
    · intro op hop
      rcases List.mem_cons.mp hop with rfl | hop2
      · exact Or.inl ⟨schemaName, rfl⟩
      · rcases List.mem_append.mp hop2 with h | h
        · obtain ⟨a, b, n, rfl⟩ := hops2 op h
          exact Or.inr (Or.inl ⟨a, b, n, rfl⟩)
        · rcases hops3 op h with ⟨i, rfl⟩ | ⟨i, rfl⟩
          · exact Or.inr (Or.inr (Or.inl ⟨i, rfl⟩))
          · exact Or.inr (Or.inr (Or.inr ⟨i, rfl⟩))
    · intro i hi
      rcases List.mem_cons.mp hi with hcs | hi2
      · cases hcs
      · rcases List.mem_append.mp hi2 with h | h
        · obtain ⟨a, b, n, hcontra⟩ := hops2 _ h
          cases hcontra
        · exact List.mem_cons_of_mem _
            (List.mem_append_right _ (hrb3 i h))
  · intro nm hnm
    have hfr : lookupTable (execCreateSchema db schemaName)
        (schemaName, nm) = none :=
      (lookupTable_ext rfl _).trans (hfresh nm hnm)
    obtain ⟨tb, htb, hr⟩ := hf2 nm hnm hfr
    exact ⟨tb, (lookupTable_ext ht3 _).trans htb, hr⟩


theorem replace_copy_failure_witness :
    hasInputError ⟨some ["a"], [none]⟩ = true ∧
    (∀ nm ∈ tempNames "tmp"
        (splitColumns
          ((⟨false, [⟨"a", "text", false, false, true⟩]⟩ : Schema).Fields.map
            fun f => cleanFieldName f.Name) 924).length, "t" ≠ nm) ∧
    (∀ nm ∈ tempNames "tmp"
        (splitColumns
          ((⟨false, [⟨"a", "text", false, false, true⟩]⟩ : Schema).Fields.map
            fun f => cleanFieldName f.Name) 924).length,
      lookupTable ⟨[], [(("public", "t"), ⟨["a"], [[some "x"]]⟩)], [], []⟩
        ("public", nm) = none) ∧
    ∃ db' e,
      Replace ⟨[], [(("public", "t"), ⟨["a"], [[some "x"]]⟩)], [], []⟩
          "public" "t" "tmp" ⟨false, [⟨"a", "text", false, false, true⟩]⟩
          ⟨some ["a"], [none]⟩ = (db', Except.error e) ∧
      lookupTable db' ("public", "t")
        = lookupTable ⟨[], [(("public", "t"), ⟨["a"], [[some "x"]]⟩)], [], []⟩
            ("public", "t") ∧
      (∀ nm ∈ tempNames "tmp"
          (splitColumns
            ((⟨false, [⟨"a", "text", false, false, true⟩]⟩ : Schema).Fields.map
              fun f => cleanFieldName f.Name) 924).length,
        ∃ tb, lookupTable db' ("public", nm) = some tb ∧ tb.rows = []) := by
  refine ⟨by decide, by decide, by decide, ?_⟩
  obtain ⟨db', e, h1, h2, h3, h4, h5⟩ :=
    replace_copy_failure
      ⟨[], [(("public", "t"), ⟨["a"], [[some "x"]]⟩)], [], []⟩
      "public" "t" "tmp" ⟨false, [⟨"a", "text", false, false, true⟩]⟩
      ⟨some ["a"], [none]⟩ (by decide) (by decide) (by decide)
  exact ⟨db', e, h1, h2, h5⟩

/-- C1 counterexample: on a failing copy (a csv read error in the first
record), Replace of a one-column schema into public.t over temp table tmp
returns the copy error and leaves the target table untouched — but the
committed temp table public.tmp remains in the database as an empty
orphan, contradicting the claim that no orphan temporary table stays
visible after rollback. -/
theorem replace_orphan_counterexample :
    (Replace ⟨[], [(("public", "t"), ⟨["a"], [[some "x"]]⟩)], [], []⟩
        "public" "t" "tmp" ⟨false, [⟨"a", "text", false, false, true⟩]⟩
        ⟨some ["a"], [none]⟩).2 = Except.error DbErr.copyRowErr ∧
    lookupTable (Replace ⟨[], [(("public", "t"), ⟨["a"], [[some "x"]]⟩)], [], []⟩
        "public" "t" "tmp" ⟨false, [⟨"a", "text", false, false, true⟩]⟩
        ⟨some ["a"], [none]⟩).1 ("public", "t") = some ⟨["a"], [[some "x"]]⟩ ∧
    lookupTable (Replace ⟨[], [(("public", "t"), ⟨["a"], [[some "x"]]⟩)], [], []⟩
        "public" "t" "tmp" ⟨false, [⟨"a", "text", false, false, true⟩]⟩
        ⟨some ["a"], [none]⟩).1 ("public", "tmp") = some ⟨["a"], []⟩ :=
  ⟨rfl, by decide, by decide⟩

/-! ### View creation in a successful Replace (C8) -/

theorem goodRows_of_ok :
    ∀ {rows : List (Option (List String))},
      rows.any Option.isNone = false → ∃ rs, goodRows rows = some rs := by
  intro rows
  induction rows with
  | nil => intro _; exact ⟨[], rfl⟩
  | cons r rest ih =>
    intro h
    cases r with
    | none => simp at h
    | some v =>
      simp only [List.any_cons, Option.isNone_some, Bool.false_or] at h
      obtain ⟨rs, hrs⟩ := ih h
      exact ⟨v :: rs, by simp [goodRows, hrs]⟩

theorem copyData_ok (db : DB) (schema table : String)
    (splits : List (List String)) (input : CopyIn)
    (hok : hasInputError input = false) :
    ∃ db3 n, copyData db schema table splits input = (db3, Except.ok n) ∧
      db3.views = db.views := by
  have hviews := copyData_views db schema table splits input
  suffices h : ∃ db3 n, copyData db schema table splits input
      = (db3, Except.ok n) by
    obtain ⟨db3, n, heq⟩ := h
    refine ⟨db3, n, heq, ?_⟩
    rw [heq] at hviews
    exact hviews
  unfold hasInputError at hok
  unfold copyData
  split
  · next heq =>
    rw [heq] at hok
    simp at hok
  · next hdr heq =>
    rw [heq] at hok
    simp only [Option.isNone_some, Bool.false_or] at hok
    obtain ⟨rs, hrs⟩ := goodRows_of_ok hok
    split
    · next heq2 =>
      rw [hrs] at heq2
      cases heq2
    · next rows heq2 =>
      exact ⟨_, _, rfl⟩

theorem mem_execCreateView (db : DB) (s v : String) :
    (s, v) ∈ (execCreateView db s v).views := by
  unfold execCreateView
  dsimp only
  split_ifs with hc
  · simpa using hc
  · exact List.mem_append_right _ (List.mem_singleton.mpr rfl)


set_option maxRecDepth 4096 in
/-- C8: in a Replace whose bulk copy succeeds, the union view at the
target name exists in the final state iff the cleaned columns were split
into more than one partition table and the field count plus the partition
count stays within the engine target-list limit of 1664; and the
2000-column schema of scenario S4 splits into 3 partitions at cap 924
with 2000 + 3 above the limit, so no view is created for it. -/
theorem view_creation_condition :
    (∀ (db : DB) (schemaName tableName tempTableName : String) (ts : Schema)
        (input : CopyIn), hasInputError input = false →
      ∃ db' n,
        Replace db schemaName tableName tempTableName ts input
          = (db', Except.ok n) ∧
        ((schemaName, tableName) ∈ db'.views ↔
          (splitColumns (ts.Fields.map fun f => cleanFieldName f.Name)
            924).length > 1 ∧
          ts.Fields.length +
            (splitColumns (ts.Fields.map fun f => cleanFieldName f.Name)
              924).length ≤ pgMaxTargetListSize)) ∧
    (splitColumns (wide2000.Fields.map fun f => cleanFieldName f.Name)
      924).length = 3 ∧
    ¬ (wide2000.Fields.length +
        (splitColumns (wide2000.Fields.map fun f => cleanFieldName f.Name)
          924).length ≤ pgMaxTargetListSize) := by
  have hlen : (wide2000.Fields.map fun f => cleanFieldName f.Name).length
      = 2000 := by
    rw [show wide2000.Fields
        = List.replicate 2000 (⟨"c", "text", false, false, true⟩ : Field)
      from rfl]
    rw [List.length_map, List.length_replicate]
  have h3 : (splitColumns (wide2000.Fields.map fun f => cleanFieldName f.Name)
      924).length = 3 := by
    rw [splitColumns_eq_of_lt _ 924 (by rw [hlen]; omega)]
    rw [hlen]
    norm_num
  refine ⟨?_, h3, ?_⟩
  swap
  · rw [h3]
    simp only [wide2000, List.length_replicate]
    unfold pgMaxTargetListSize
    omega
  intro db schemaName tableName tempTableName ts input hok
  obtain ⟨db2, heqCT, hv2, hs2, hlog2, ho2, hp2, hf2⟩ :=
    createTable_ok (execCreateSchema db schemaName) schemaName tempTableName ts
  obtain ⟨db3, n, heqCD, hv3⟩ :=
    copyData_ok db2 schemaName tempTableName
      (splitColumns (ts.Fields.map fun f => cleanFieldName f.Name) 924)
      input hok
  set S := splitColumns (ts.Fields.map fun f => cleanFieldName f.Name) 924
    with hS
  set db4 := execDropView db3 schemaName tableName with hdb4
  set db5 := execDropTable db4 schemaName tableName with hdb5
  set db6 := renameTable db5 schemaName tempTableName tableName S.length
    with hdb6
  set db7 := if S.length > 1 ∧
      ts.Fields.length + S.length ≤ pgMaxTargetListSize
    then execCreateView db6 schemaName tableName else db6 with hdb7
  refine ⟨analyzeTable db7 schemaName tableName S, n, ?_, ?_⟩
  · simp only [Replace]
    split
    · next db2a ea heq =>
      rw [heqCT] at heq
      simp at heq
    · next db2a splitsa heq =>
      rw [heqCT] at heq
      simp only [Prod.mk.injEq, Except.ok.injEq] at heq
      obtain ⟨h1, h2⟩ := heq
      subst h1
      subst h2
      split
      · next db3a ea heq2 =>
        rw [heqCD] at heq2
        simp at heq2
      · next db3a na heq2 =>
        rw [heqCD] at heq2
        simp only [Prod.mk.injEq, Except.ok.injEq] at heq2
        obtain ⟨h3, h4⟩ := heq2
        subst h3
        subst h4
        rfl
  · rw [analyzeTable_views]
    by_cases hcond : S.length > 1 ∧
        ts.Fields.length + S.length ≤ pgMaxTargetListSize
    · rw [hdb7, if_pos hcond]
      exact ⟨fun _ => hcond,
        fun _ => mem_execCreateView db6 schemaName tableName⟩
    · rw [hdb7, if_neg hcond]
      have hv6 : db6.views
          = db3.views.filter (fun v => v != (schemaName, tableName)) := by
        rw [hdb6, renameTable_views]
        rfl
      rw [hv6]
      constructor
      · intro hmem
        have := (List.mem_filter.mp hmem).2
        simp at this
      · intro hc
        exact absurd hc hcond

theorem view_creation_condition_witness :
    hasInputError ⟨some ["a"], [some ["x"]]⟩ = false ∧
    ∃ db' n,
      Replace ⟨[], [], [], []⟩ "public" "t" "tmp"
          ⟨false, [⟨"a", "text", false, false, true⟩]⟩
          ⟨some ["a"], [some ["x"]]⟩ = (db', Except.ok n) ∧
      (("public", "t") ∈ db'.views ↔
        (splitColumns
          ((⟨false, [⟨"a", "text", false, false, true⟩]⟩ : Schema).Fields.map
            fun f => cleanFieldName f.Name) 924).length > 1 ∧
        (⟨false, [⟨"a", "text", false, false, true⟩]⟩ : Schema).Fields.length +
          (splitColumns
            ((⟨false, [⟨"a", "text", false, false, true⟩]⟩ : Schema).Fields.map
              fun f => cleanFieldName f.Name) 924).length
          ≤ pgMaxTargetListSize) :=
  ⟨by decide, view_creation_condition.1 ⟨[], [], [], []⟩ "public" "t" "tmp"
    ⟨false, [⟨"a", "text", false, false, true⟩]⟩
    ⟨some ["a"], [some ["x"]]⟩ (by decide)⟩

end SqlImporter
